import Mathlib

/-!
Verification of the xiaozhi-assets-generator binary encoders.

JavaScript strings are sequences of UTF-16 code units; we embed them as
`Str := List Nat`.  Byte buffers (`Uint8Array`/`ArrayBuffer`) are embedded as
`List Nat` whose elements are byte values.  Each definition below is a direct
translation of the corresponding JavaScript function, named after it.
-/

/-- Model of a JavaScript string: its sequence of UTF-16 code units. -/
abbrev Str := List Nat

/-- Code units of an ASCII Lean string literal, used to write concrete
JavaScript strings in examples (for ASCII text, code points = UTF-16 units). -/
def strLit (s : String) : Str := s.data.map Char.toNat

/-- Lexicographic comparison of code-unit sequences. -/
def strOrd : Str → Str → Ordering
  | [], [] => .eq
  | [], _ :: _ => .lt
  | _ :: _, [] => .gt
  | a :: as, b :: bs =>
    if a < b then .lt else if b < a then .gt else strOrd as bs

/-- ASCII lower-casing of a code-unit sequence (the fragment of
`String.prototype.toLowerCase` exercised by this code base). -/
def asciiLower (s : Str) : Str :=
  s.map (fun c => if 65 ≤ c ∧ c ≤ 90 then c + 32 else c)

/-- Model of `String.prototype.localeCompare` in the default locale for the
strings this code base compares: primary comparison is case-insensitive
(ICU-style), with the raw code-unit order as tie-break, so that the result is
`eq` exactly for identical strings. -/
def icuCompare (a b : Str) : Ordering :=
  match strOrd (asciiLower a) (asciiLower b) with
  | .eq => strOrd a b
  | o => o

theorem strOrd_eq_iff : ∀ (a b : Str), strOrd a b = .eq ↔ a = b := by
  intro a
  induction a with
  | nil => intro b; cases b <;> simp [strOrd]
  | cons x xs ih =>
    intro b
    cases b with
    | nil => simp [strOrd]
    | cons y ys =>
      by_cases hxy : x < y
      · simp [strOrd, hxy]
        omega
      · by_cases hyx : y < x
        · simp [strOrd, hxy, hyx]
          omega
        · have hxg : x = y := by omega
          simp [strOrd, hxy, hyx, hxg, ih ys]

theorem strOrd_gt_iff_lt : ∀ (a b : Str), strOrd a b = .gt ↔ strOrd b a = .lt := by
  intro a
  induction a with
  | nil => intro b; cases b <;> simp [strOrd]
  | cons x xs ih =>
    intro b
    cases b with
    | nil => simp [strOrd]
    | cons y ys =>
      by_cases hxy : x < y
      · have : ¬ y < x := by omega
        simp [strOrd, hxy, this]
      · by_cases hyx : y < x
        · simp [strOrd, hxy, hyx]
        · simp [strOrd, hxy, hyx, ih ys]

theorem strOrd_lt_trans :
    ∀ (a b c : Str), strOrd a b = .lt → strOrd b c = .lt → strOrd a c = .lt := by
  intro a
  induction a with
  | nil =>
    intro b c hab hbc
    cases b with
    | nil => exact hbc
    | cons y ys => cases c with
      | nil => simp [strOrd] at hbc
      | cons z zs => simp [strOrd]
  | cons x xs ih =>
    intro b c hab hbc
    cases b with
    | nil => simp [strOrd] at hab
    | cons y ys =>
      cases c with
      | nil => simp [strOrd] at hbc
      | cons z zs =>
        simp only [strOrd] at hab hbc ⊢
        by_cases hxy : x < y
        · by_cases hyz : y < z
          · have hxz : x < z := by omega
            simp [hxz]
          · by_cases hzy : z < y
            · simp [hyz, hzy] at hbc
            · have hyz2 : y = z := by omega
              subst hyz2
              simp [hxy]
        · by_cases hyx : y < x
          · simp [hxy, hyx] at hab
          · have hxy2 : x = y := by omega
            subst hxy2
            simp only [lt_irrefl, if_false] at hab
            by_cases hxz : x < z
            · simp [hxz]
            · by_cases hzx : z < x
              · simp [hxz, hzx] at hbc
              · simp only [hxz, hzx, if_false] at hbc ⊢
                exact ih ys zs hab hbc

theorem icuCompare_eq_iff (a b : Str) : icuCompare a b = .eq ↔ a = b := by
  unfold icuCompare
  rcases h : strOrd (asciiLower a) (asciiLower b) with _ | _ | _
  · simp
    intro hc
    subst hc
    rw [(strOrd_eq_iff _ _).mpr rfl] at h
    cases h
  · simp [strOrd_eq_iff]
  · simp
    intro hc
    subst hc
    rw [(strOrd_eq_iff _ _).mpr rfl] at h
    cases h

theorem icuCompare_gt_iff_lt (a b : Str) : icuCompare a b = .gt ↔ icuCompare b a = .lt := by
  unfold icuCompare
  rcases h : strOrd (asciiLower a) (asciiLower b) with _ | _ | _
  · have h2 : strOrd (asciiLower b) (asciiLower a) = .gt := by
      rw [strOrd_gt_iff_lt]; exact h
    simp [h2]
  · have h2 : asciiLower a = asciiLower b := (strOrd_eq_iff _ _).mp h
    have h3 : strOrd (asciiLower b) (asciiLower a) = .eq := by
      rw [strOrd_eq_iff]; exact h2.symm
    simp [h3, strOrd_gt_iff_lt]
  · have h2 : strOrd (asciiLower b) (asciiLower a) = .lt := by
      rw [← strOrd_gt_iff_lt]; exact h
    simp [h2]

theorem icuCompare_lt_trans (a b c : Str) (hab : icuCompare a b = .lt)
    (hbc : icuCompare b c = .lt) : icuCompare a c = .lt := by
  unfold icuCompare at hab hbc ⊢
  rcases h1 : strOrd (asciiLower a) (asciiLower b) with _ | _ | _ <;>
    rcases h2 : strOrd (asciiLower b) (asciiLower c) with _ | _ | _ <;>
      simp [h1, h2] at hab hbc
  · have := strOrd_lt_trans _ _ _ h1 h2
    simp [this]
  · have h2e : asciiLower b = asciiLower c := (strOrd_eq_iff _ _).mp h2
    rw [← h2e]
    simp [h1]
  · have h1e : asciiLower a = asciiLower b := (strOrd_eq_iff _ _).mp h1
    rw [h1e]
    simp [h2]
  · have h1e : asciiLower a = asciiLower b := (strOrd_eq_iff _ _).mp h1
    have h2e : asciiLower b = asciiLower c := (strOrd_eq_iff _ _).mp h2
    rw [h1e, h2e]
    have heq : strOrd (asciiLower c) (asciiLower c) = .eq := by
      rw [strOrd_eq_iff]
    simp [heq]
    exact strOrd_lt_trans _ _ _ hab hbc

theorem icuCompare_not_gt_total (a b : Str) :
    icuCompare a b ≠ .gt ∨ icuCompare b a ≠ .gt := by
  rcases h : icuCompare a b with _ | _ | _
  · left; simp
  · left; simp
  · right
    rw [icuCompare_gt_iff_lt] at h
    simp [h]

/-- Two sorted permutations of each other are equal when the order is
antisymmetric on the elements involved. -/
theorem sorted_perm_unique {α : Type} (r : α → α → Prop) :
    ∀ (l₁ l₂ : List α), l₁.Perm l₂ → l₁.Sorted r → l₂.Sorted r →
      (∀ a ∈ l₁, ∀ b ∈ l₁, r a b → r b a → a = b) → l₁ = l₂ := by
  intro l₁
  induction l₁ with
  | nil =>
    intro l₂ hperm _ _ _
    exact (List.Perm.nil_eq hperm).symm.symm ▸ rfl
  | cons a t₁ ih =>
    intro l₂ hperm hs₁ hs₂ hanti
    cases l₂ with
    | nil => exact absurd hperm.symm (by simp)
    | cons b t₂ =>
      have hab : a = b := by
        by_contra hne
        have hain : a ∈ b :: t₂ := hperm.mem_iff.mp (by simp)
        have hbin : b ∈ a :: t₁ := hperm.mem_iff.mpr (by simp)
        have hat₂ : a ∈ t₂ := by
          rcases hain with _ | h
          · exact absurd rfl hne
          · assumption
        have hbt₁ : b ∈ t₁ := by
          rcases hbin with _ | h
          · exact absurd rfl (fun hx => hne hx.symm)
          · assumption
        have h1 : r a b := (List.pairwise_cons.mp hs₁).1 b hbt₁
        have h2 : r b a := (List.pairwise_cons.mp hs₂).1 a hat₂
        exact hne (hanti a (by simp) b (by simp [hbt₁]) h1 h2)
      subst hab
      have htperm : t₁.Perm t₂ := hperm.cons_inv
      have := ih t₂ htperm (List.Pairwise.of_cons hs₁)
        (List.Pairwise.of_cons hs₂)
        (fun x hx y hy hxy hyx => hanti x (by simp [hx]) y (by simp [hy]) hxy hyx)
      rw [this]

/-- A stable sort of two permuted lists gives the same result when no two
elements of the list are tied by the order. -/
theorem insertionSort_eq_of_perm {α : Type} (r : α → α → Prop) [DecidableRel r]
    [IsTotal α r] [IsTrans α r] (l₁ l₂ : List α) (hperm : l₁.Perm l₂)
    (hanti : ∀ a ∈ l₁, ∀ b ∈ l₁, r a b → r b a → a = b) :
    List.insertionSort r l₁ = List.insertionSort r l₂ := by
  apply sorted_perm_unique r
  · exact (List.perm_insertionSort r l₁).trans
      (hperm.trans (List.perm_insertionSort r l₂).symm)
  · exact List.sorted_insertionSort r l₁
  · exact List.sorted_insertionSort r l₂
  · intro a ha b hb
    exact hanti a ((List.perm_insertionSort r l₁).mem_iff.mp ha)
      b ((List.perm_insertionSort r l₁).mem_iff.mp hb)

/-- Bytes written when any value below `2 ^ 53` is stored through the
JavaScript expressions `v & 0xFF`, `(v >> 8) & 0xFF`, `(v >> 16) & 0xFF`,
`(v >> 24) & 0xFF`: the four little-endian bytes of `v mod 2 ^ 32`.
Translation of `packUint32` (identical in part_002 and part_003). -/
def packUint32 (v : Nat) : List Nat :=
  [v % 256, v / 256 % 256, v / 65536 % 256, v / 16777216 % 256]

/-- Translation of `packUint16`: two little-endian bytes. -/
def packUint16 (v : Nat) : List Nat :=
  [v % 256, v / 256 % 256]

/-- Bytes of a `DataView.setUint32(…, true)` store of a possibly negative
JavaScript number (`ToUint32` wraps modulo `2 ^ 32`). -/
def u32leInt (z : Int) : List Nat :=
  packUint32 (z.emod 4294967296).toNat

/-- Bytes of a `DataView.setInt16(…, true)` store (two's complement). -/
def i16le (z : Int) : List Nat :=
  packUint16 (z.emod 65536).toNat

/-- Little-endian 32-bit read at byte offset `off` (0 when out of range). -/
def readU32 (bs : List Nat) (off : Nat) : Nat :=
  bs.getD off 0 + bs.getD (off + 1) 0 * 256 + bs.getD (off + 2) 0 * 65536 +
    bs.getD (off + 3) 0 * 16777216

theorem packUint32_length (v : Nat) : (packUint32 v).length = 4 := rfl

theorem packUint16_length (v : Nat) : (packUint16 v).length = 2 := rfl

/-! ## SpiffsGenerator (src/unnamed/part_002) -/

/-- Decoding of UTF-16 code units to code points, as `TextEncoder.encode`
does, replacing lone surrogates by U+FFFD. -/
def utf16ToCodepoints : Str → List Nat
  | [] => []
  | [u] => if 55296 ≤ u ∧ u ≤ 57343 then [65533] else [u]
  | u :: v :: rest =>
    if 55296 ≤ u ∧ u ≤ 56319 then
      if 56320 ≤ v ∧ v ≤ 57343 then
        (65536 + (u - 55296) * 1024 + (v - 56320)) :: utf16ToCodepoints rest
      else 65533 :: utf16ToCodepoints (v :: rest)
    else if 56320 ≤ u ∧ u ≤ 57343 then 65533 :: utf16ToCodepoints (v :: rest)
    else u :: utf16ToCodepoints (v :: rest)

/-- UTF-8 bytes of one code point. -/
def utf8EncodeCodepoint (c : Nat) : List Nat :=
  if c < 128 then [c]
  else if c < 2048 then [192 + c / 64, 128 + c % 64]
  else if c < 65536 then [224 + c / 4096, 128 + c / 64 % 64, 128 + c % 64]
  else [240 + c / 262144, 128 + c / 4096 % 64, 128 + c / 64 % 64, 128 + c % 64]

/-- Model of `TextEncoder.encode`: the UTF-8 bytes of a JavaScript string. -/
def textEncode (s : Str) : List Nat :=
  ((utf16ToCodepoints s).map utf8EncodeCodepoint).flatten

/-- A file recorded by `SpiffsGenerator.addFile`: the generator stores
`{filename, data, size: data.byteLength, width: options.width || 0,
height: options.height || 0}`; `size` is kept implicit as `data.length`. -/
structure SFile where
  filename : Str
  data : List Nat
  width : Nat
  height : Nat
deriving DecidableEq

/-- Translation of `String.prototype.split('.')`. -/
def splitDotAux : Str → Str → List Str
  | [], acc => [acc.reverse]
  | c :: rest, acc =>
    if c = 46 then acc.reverse :: splitDotAux rest [] else splitDotAux rest (c :: acc)

/-- Split of a JavaScript string on `'.'` (code unit 46). -/
def jsSplitDot (s : Str) : List Str := splitDotAux s []

/-- Translation of `filename.split('.').pop() || ''`. -/
def fileExt (s : Str) : Str := (jsSplitDot s).getLastD []

/-- Join with `'.'` used to express the stem below. -/
def joinDot : List Str → Str
  | [] => []
  | [x] => x
  | x :: xs => x ++ 46 :: joinDot xs

/-- Translation of `filename.replace(/\.[^/.]+$/, '')`: the regular
expression removes a final `'.'` followed by one or more characters that are
neither `'.'` nor `'/'`; on the pieces of `jsSplitDot` this matches exactly
when there are at least two pieces and the last one is non-empty and free of
`'/'` (code 47). -/
def fileStem (s : Str) : Str :=
  let ps := jsSplitDot s
  if 2 ≤ ps.length ∧ ps.getLastD [] ≠ [] ∧ ¬ 47 ∈ ps.getLastD [] then
    joinDot ps.dropLast
  else s

/-- Comparator inside `SpiffsGenerator.sortFiles`: compare extensions with
`localeCompare` when they differ as strings, otherwise compare stems. -/
def sortFilesCmp (a b : SFile) : Ordering :=
  if fileExt a.filename ≠ fileExt b.filename then
    icuCompare (fileExt a.filename) (fileExt b.filename)
  else icuCompare (fileStem a.filename) (fileStem b.filename)

/-- Order relation corresponding to a non-positive comparator result. -/
def sortFilesR (a b : SFile) : Prop := sortFilesCmp a b ≠ .gt

instance : DecidableRel sortFilesR := fun a b => by
  unfold sortFilesR; infer_instance

/-- Translation of `SpiffsGenerator.sortFiles`: `files.slice().sort(cmp)`;
a JavaScript `Array.prototype.sort` is stable and with a consistent
comparator its result is that of a stable insertion sort. -/
def sortFiles (files : List SFile) : List SFile :=
  List.insertionSort sortFilesR files

/-- Sort key of a file: `(extension, stem)`. -/
def fileKey (f : SFile) : Str × Str := (fileExt f.filename, fileStem f.filename)

/-- Lexicographic `localeCompare` on sort keys. -/
def keyCmp (p q : Str × Str) : Ordering :=
  match icuCompare p.1 q.1 with
  | .eq => icuCompare p.2 q.2
  | o => o

theorem sortFilesCmp_eq_keyCmp (a b : SFile) :
    sortFilesCmp a b = keyCmp (fileKey a) (fileKey b) := by
  unfold sortFilesCmp keyCmp fileKey
  by_cases h : fileExt a.filename = fileExt b.filename
  · have heb : icuCompare (fileExt b.filename) (fileExt b.filename) = Ordering.eq :=
      (icuCompare_eq_iff _ _).mpr rfl
    simp [h, heb]
  · rcases hc : icuCompare (fileExt a.filename) (fileExt b.filename) with _ | _ | _
    · simp [h, hc]
    · exact absurd ((icuCompare_eq_iff _ _).mp hc) h
    · simp [h, hc]

theorem keyCmp_eq_iff (p q : Str × Str) : keyCmp p q = .eq ↔ p = q := by
  unfold keyCmp
  rcases h : icuCompare p.1 q.1 with _ | _ | _
  · simp
    intro hc
    rw [hc, (icuCompare_eq_iff _ _).mpr rfl] at h
    cases h
  · have h1 : p.1 = q.1 := (icuCompare_eq_iff _ _).mp h
    simp only [icuCompare_eq_iff]
    constructor
    · intro h2
      exact Prod.ext h1 h2
    · intro h2
      rw [h2]
  · simp
    intro hc
    rw [hc, (icuCompare_eq_iff _ _).mpr rfl] at h
    cases h

theorem keyCmp_gt_iff_lt (p q : Str × Str) : keyCmp p q = .gt ↔ keyCmp q p = .lt := by
  unfold keyCmp
  rcases h : icuCompare p.1 q.1 with _ | _ | _
  · have h2 : icuCompare q.1 p.1 = .gt := (icuCompare_gt_iff_lt _ _).mpr h
    simp [h2]
  · have h1 : p.1 = q.1 := (icuCompare_eq_iff _ _).mp h
    have h2 : icuCompare q.1 p.1 = .eq := (icuCompare_eq_iff _ _).mpr h1.symm
    simp [h2, icuCompare_gt_iff_lt]
  · have h2 : icuCompare q.1 p.1 = .lt := (icuCompare_gt_iff_lt _ _).mp h
    simp [h2]

theorem keyCmp_lt_trans (p q s : Str × Str) (hpq : keyCmp p q = .lt)
    (hqs : keyCmp q s = .lt) : keyCmp p s = .lt := by
  unfold keyCmp at hpq hqs ⊢
  rcases h1 : icuCompare p.1 q.1 with _ | _ | _ <;>
    rcases h2 : icuCompare q.1 s.1 with _ | _ | _ <;>
      simp [h1, h2] at hpq hqs
  · simp [icuCompare_lt_trans _ _ _ h1 h2]
  · have he : q.1 = s.1 := (icuCompare_eq_iff _ _).mp h2
    rw [← he, h1]
  · have he : p.1 = q.1 := (icuCompare_eq_iff _ _).mp h1
    rw [he, h2]
  · have he1 : p.1 = q.1 := (icuCompare_eq_iff _ _).mp h1
    have he2 : q.1 = s.1 := (icuCompare_eq_iff _ _).mp h2
    rw [he1, he2, (icuCompare_eq_iff _ _).mpr rfl]
    exact icuCompare_lt_trans _ _ _ hpq hqs

instance : IsTotal SFile sortFilesR where
  total a b := by
    unfold sortFilesR
    rw [sortFilesCmp_eq_keyCmp, sortFilesCmp_eq_keyCmp]
    rcases h : keyCmp (fileKey a) (fileKey b) with _ | _ | _
    · left; simp
    · left; simp
    · right
      rw [(keyCmp_gt_iff_lt _ _).mp h]
      simp

instance : IsTrans SFile sortFilesR where
  trans a b c hab hbc := by
    unfold sortFilesR at hab hbc ⊢
    rw [sortFilesCmp_eq_keyCmp] at hab hbc ⊢
    rcases h1 : keyCmp (fileKey a) (fileKey b) with _ | _ | _ <;> rw [h1] at hab
    · rcases h2 : keyCmp (fileKey b) (fileKey c) with _ | _ | _ <;> rw [h2] at hbc
      · rw [keyCmp_lt_trans _ _ _ h1 h2]
        simp
      · rw [← (keyCmp_eq_iff _ _).mp h2, h1]
        simp
      · exact absurd rfl hbc
    · rw [(keyCmp_eq_iff _ _).mp h1]
      exact hbc
    · exact absurd rfl hab

theorem sortFilesR_antisymm_key (a b : SFile) (hab : sortFilesR a b)
    (hba : sortFilesR b a) : fileKey a = fileKey b := by
  unfold sortFilesR at hab hba
  rw [sortFilesCmp_eq_keyCmp] at hab hba
  rcases h : keyCmp (fileKey a) (fileKey b) with _ | _ | _
  · exact absurd ((keyCmp_gt_iff_lt _ _).mpr h) hba
  · exact (keyCmp_eq_iff _ _).mp h
  · exact absurd h hab

/-- Translation of `SpiffsGenerator.packString`: UTF-8 encode the name with
`TextEncoder`, copy at most `maxLen` bytes, leave the rest zero. -/
def spiffsPackString (s : Str) (maxLen : Nat) : List Nat :=
  let encoded := textEncode s
  let copyLen := min encoded.length maxLen
  encoded.take copyLen ++ List.replicate (maxLen - copyLen) 0

/-- Translation of `SpiffsGenerator.computeChecksum`: unsigned byte sum
masked with `0xFFFF`. -/
def computeChecksum (data : List Nat) : Nat := data.sum % 65536

/-- Translation of `SpiffsGenerator.parseSpecialImageFormat`: for the
`.sjpg`/`.spng`/`.sqoi` extensions read width and height as little-endian
16-bit words at byte offsets 14 and 16; a `DataView` range error (data
shorter than 18 bytes) is caught and gives `(0, 0)`. -/
def parseSpecialImageFormat (filename : Str) (data : List Nat) : Nat × Nat :=
  let ext := fileExt (asciiLower filename)
  if (46 :: ext) = strLit ".sjpg" ∨ (46 :: ext) = strLit ".spng" ∨
      (46 :: ext) = strLit ".sqoi" then
    if 18 ≤ data.length then
      (data.getD 14 0 + 256 * data.getD 15 0, data.getD 16 0 + 256 * data.getD 17 0)
    else (0, 0)
  else (0, 0)

/-- Dimension resolution in the first loop of `SpiffsGenerator.generate`.
The browser image decoder (`getImageDimensions`) is an external collaborator
passed in as `imgDims`; it is only consulted for the listed raster
extensions when the stored dimensions are both zero and the special-format
probe yields nothing. -/
def resolveDims (imgDims : List Nat → Nat × Nat) (f : SFile) : Nat × Nat :=
  if f.width = 0 ∧ f.height = 0 then
    let sp := parseSpecialImageFormat f.filename f.data
    if 0 < sp.1 ∨ 0 < sp.2 then sp
    else
      let ext := fileExt (asciiLower f.filename)
      if ext = strLit "png" ∨ ext = strLit "jpg" ∨ ext = strLit "jpeg" ∨
          ext = strLit "gif" ∨ ext = strLit "bmp" ∨ ext = strLit "webp" then
        imgDims f.data
      else (0, 0)
  else (f.width, f.height)

/-- One 44-byte row of the mapping table: name (32) + size (4) + offset (4)
+ width (2) + height (2). -/
def mmapRow (imgDims : List Nat → Nat × Nat) (f : SFile) (offset : Nat) : List Nat :=
  spiffsPackString f.filename 32 ++ packUint32 f.data.length ++ packUint32 offset ++
    packUint16 (resolveDims imgDims f).1 ++ packUint16 (resolveDims imgDims f).2

/-- The mapping table of `generate`, built over the sorted files while the
`mergedDataSize` accumulator advances by `2 + size` per file. -/
def mmapTableAux (imgDims : List Nat → Nat × Nat) : List SFile → Nat → List Nat
  | [], _ => []
  | f :: fs, off => mmapRow imgDims f off ++ mmapTableAux imgDims fs (off + (2 + f.data.length))

/-- The merged data region of `generate`: each file's bytes preceded by the
marker `0x5A 0x5A`. -/
def mergedData (sorted : List SFile) : List Nat :=
  (sorted.map (fun f => 90 :: 90 :: f.data)).flatten

/-- Translation of `SpiffsGenerator.generate`: header (file count, checksum,
combined length) followed by mapping table and marker-framed data; the
`throw` on an empty file list is modelled by `none`. -/
def spiffsGenerate (imgDims : List Nat → Nat × Nat) (files : List SFile) :
    Option (List Nat) :=
  if files.length = 0 then none
  else
    let sorted := sortFiles files
    let mmap := mmapTableAux imgDims sorted 0
    let combined := mmap ++ mergedData sorted
    some (packUint32 sorted.length ++ packUint32 (computeChecksum combined) ++
      packUint32 combined.length ++ combined)

theorem spiffsPackString_length (s : Str) (maxLen : Nat) :
    (spiffsPackString s maxLen).length = maxLen := by
  unfold spiffsPackString
  simp only [List.length_append, List.length_take, List.length_replicate]
  omega

theorem mmapRow_length (imgDims : List Nat → Nat × Nat) (f : SFile) (off : Nat) :
    (mmapRow imgDims f off).length = 44 := by
  unfold mmapRow
  simp [spiffsPackString_length, packUint32, packUint16]

theorem mmapTableAux_length (imgDims : List Nat → Nat × Nat) :
    ∀ (fs : List SFile) (off : Nat), (mmapTableAux imgDims fs off).length = 44 * fs.length := by
  intro fs
  induction fs with
  | nil => intro off; simp [mmapTableAux]
  | cons f fs ih =>
    intro off
    simp [mmapTableAux, mmapRow_length, ih]
    ring

theorem mmapTableAux_slice (imgDims : List Nat → Nat × Nat) :
    ∀ (fs : List SFile) (off i : Nat) (hi : i < fs.length),
      ((mmapTableAux imgDims fs off).drop (44 * i)).take 44 =
        mmapRow imgDims fs[i]
          (off + ((fs.take i).map (fun f => 2 + f.data.length)).sum) := by
  intro fs
  induction fs with
  | nil => intro off i hi; simp at hi
  | cons f fs ih =>
    intro off i hi
    cases i with
    | zero =>
      simp only [mmapTableAux, Nat.mul_zero, List.drop_zero, List.take_zero,
        List.map_nil, List.sum_nil, Nat.add_zero, List.getElem_cons_zero]
      rw [← mmapRow_length imgDims f off]
      exact List.take_left _ _
    | succ i =>
      have hlen : (mmapRow imgDims f off).length = 44 := mmapRow_length _ _ _
      have hdrop : (mmapTableAux imgDims (f :: fs) off).drop (44 * (i + 1)) =
          (mmapTableAux imgDims fs (off + (2 + f.data.length))).drop (44 * i) := by
        have h44 : 44 * (i + 1) = 44 + 44 * i := by ring
        have hd := List.drop_left (mmapRow imgDims f off)
          (mmapTableAux imgDims fs (off + (2 + f.data.length)))
        rw [hlen] at hd
        rw [h44, ← List.drop_drop]
        simp only [mmapTableAux]
        rw [hd]
      rw [hdrop, ih _ i (by simpa using hi)]
      simp only [List.getElem_cons_succ, List.take_succ_cons, List.map_cons,
        List.sum_cons]
      ring_nf

theorem mergedData_slice :
    ∀ (fs : List SFile) (i : Nat) (hi : i < fs.length),
      ((mergedData fs).drop (((fs.take i).map (fun f => 2 + f.data.length)).sum)).take
          (2 + fs[i].data.length) = 90 :: 90 :: fs[i].data := by
  intro fs
  induction fs with
  | nil => intro i hi; simp at hi
  | cons f fs ih =>
    intro i hi
    cases i with
    | zero =>
      simp only [List.take_zero, List.map_nil, List.sum_nil, List.drop_zero,
        List.getElem_cons_zero, mergedData, List.map_cons, List.flatten_cons]
      have hl : (2 + f.data.length) = (90 :: 90 :: f.data).length := by
        simp
        omega
      rw [hl]
      exact List.take_left _ _
    | succ i =>
      simp only [List.take_succ_cons, List.map_cons, List.sum_cons,
        List.getElem_cons_succ]
      have hstep : (mergedData (f :: fs)).drop
          ((2 + f.data.length) + ((fs.take i).map (fun f => 2 + f.data.length)).sum) =
          (mergedData fs).drop (((fs.take i).map (fun f => 2 + f.data.length)).sum) := by
        have hd := List.drop_left (90 :: 90 :: f.data)
          ((fs.map (fun f => 90 :: 90 :: f.data)).flatten)
        have hl : (90 :: 90 :: f.data).length = 2 + f.data.length := by
          simp
          omega
        rw [hl] at hd
        rw [← List.drop_drop]
        simp only [mergedData, List.map_cons, List.flatten_cons]
        rw [hd]
      rw [hstep]
      exact ih i (by simpa using hi)

theorem mmapRow_offset_field (imgDims : List Nat → Nat × Nat) (f : SFile) (off : Nat) :
    ((mmapRow imgDims f off).drop 36).take 4 = packUint32 off := by
  unfold mmapRow
  rw [List.append_assoc, List.append_assoc, List.append_assoc]
  have h32 := List.drop_left (spiffsPackString f.filename 32)
    (packUint32 f.data.length ++ (packUint32 off ++
      (packUint16 (resolveDims imgDims f).1 ++ packUint16 (resolveDims imgDims f).2)))
  rw [spiffsPackString_length] at h32
  have hdd : (36 : Nat) = 32 + 4 := rfl
  rw [hdd, ← List.drop_drop, h32]
  have h4 := List.drop_left (packUint32 f.data.length)
    (packUint32 off ++
      (packUint16 (resolveDims imgDims f).1 ++ packUint16 (resolveDims imgDims f).2))
  rw [packUint32_length] at h4
  rw [h4]
  have ht := List.take_left (packUint32 off)
    (packUint16 (resolveDims imgDims f).1 ++ packUint16 (resolveDims imgDims f).2)
  rw [packUint32_length] at ht
  exact ht

theorem spiffsGenerate_eq (imgDims : List Nat → Nat × Nat) (files : List SFile)
    (hne : files.length ≠ 0) :
    spiffsGenerate imgDims files =
      some (packUint32 (sortFiles files).length ++
        packUint32 (computeChecksum
          (mmapTableAux imgDims (sortFiles files) 0 ++ mergedData (sortFiles files))) ++
        packUint32
          (mmapTableAux imgDims (sortFiles files) 0 ++ mergedData (sortFiles files)).length ++
        (mmapTableAux imgDims (sortFiles files) 0 ++ mergedData (sortFiles files))) := by
  unfold spiffsGenerate
  simp [hne]

theorem packUint32_triple_drop (a b c : Nat) (rest : List Nat) :
    (packUint32 a ++ packUint32 b ++ packUint32 c ++ rest).drop 12 = rest := by
  simp [packUint32]

/-- **C2** For every non-empty file list, the 32-bit checksum field stored at
byte offset 4 of the generated container equals the unsigned byte sum of the
packed mapping table and marker-framed data region (bytes 12 onward) reduced
modulo 65536, and the high 16 bits of the field (bytes 6 and 7) are zero, so
recomputing the sum over the packed output reproduces the stored value. -/
theorem spiffs_checksum_roundtrip (imgDims : List Nat → Nat × Nat)
    (files : List SFile) (hne : files ≠ []) :
    ∃ out, spiffsGenerate imgDims files = some out ∧
      readU32 out 4 = computeChecksum (out.drop 12) ∧
      out.getD 6 0 = 0 ∧ out.getD 7 0 = 0 := by
  have hlen : files.length ≠ 0 := fun h => hne (List.length_eq_zero.mp h)
  refine ⟨_, spiffsGenerate_eq imgDims files hlen, ?_, ?_, ?_⟩
  · rw [packUint32_triple_drop]
    have hcks : computeChecksum
        (mmapTableAux imgDims (sortFiles files) 0 ++ mergedData (sortFiles files)) <
        65536 := Nat.mod_lt _ (by norm_num)
    generalize computeChecksum
      (mmapTableAux imgDims (sortFiles files) 0 ++ mergedData (sortFiles files)) = c at hcks ⊢
    simp only [readU32, packUint32, List.cons_append, List.nil_append,
      List.getD_cons_succ, List.getD_cons_zero]
    omega
  · simp only [packUint32, List.cons_append, List.nil_append,
      List.getD_cons_succ, List.getD_cons_zero]
    have hcks : computeChecksum
        (mmapTableAux imgDims (sortFiles files) 0 ++ mergedData (sortFiles files)) <
        65536 := Nat.mod_lt _ (by norm_num)
    omega
  · simp only [packUint32, List.cons_append, List.nil_append,
      List.getD_cons_succ, List.getD_cons_zero]
    have hcks : computeChecksum
        (mmapTableAux imgDims (sortFiles files) 0 ++ mergedData (sortFiles files)) <
        65536 := Nat.mod_lt _ (by norm_num)
    omega

/-- Witness for C2 at a concrete input (two files, one with empty data). -/
theorem spiffs_checksum_roundtrip_witness :
    ∃ out, spiffsGenerate (fun _ => (0, 0))
        [⟨strLit "b.txt", [7, 8], 1, 1⟩, ⟨strLit "a.txt", [], 1, 1⟩] = some out ∧
      readU32 out 4 = computeChecksum (out.drop 12) ∧
      out.getD 6 0 = 0 ∧ out.getD 7 0 = 0 :=
  spiffs_checksum_roundtrip (fun _ => (0, 0))
    [⟨strLit "b.txt", [7, 8], 1, 1⟩, ⟨strLit "a.txt", [], 1, 1⟩] (by decide)

/-- **C1** For every non-empty file list and every index `i` into the sorted
order, the mapping-table row of entry `i` stores as its offset field the sum
of `2 + size` over all preceding entries, and that offset is exactly the
position of entry `i`'s `0x5A 0x5A` marker (followed by its data) inside the
combined data region; the sum is `0` for `i = 0` by definition. -/
theorem spiffs_offset_table_correct (imgDims : List Nat → Nat × Nat)
    (files : List SFile) (hne : files ≠ []) (i : Nat)
    (hi : i < (sortFiles files).length) :
    ∃ out, spiffsGenerate imgDims files = some out ∧
      ((out.drop (12 + (44 * i + 36))).take 4 =
        packUint32 ((((sortFiles files).take i).map (fun f => 2 + f.data.length)).sum)) ∧
      ((out.drop (12 + (44 * (sortFiles files).length +
          (((sortFiles files).take i).map (fun f => 2 + f.data.length)).sum))).take
          (2 + ((sortFiles files)[i]).data.length) =
        90 :: 90 :: ((sortFiles files)[i]).data) := by
  have hlen : files.length ≠ 0 := fun h => hne (List.length_eq_zero.mp h)
  refine ⟨_, spiffsGenerate_eq imgDims files hlen, ?_, ?_⟩
  · rw [← List.drop_drop]
    rw [packUint32_triple_drop]
    have h1 : (44 * i + 36 : Nat) = 44 * i + 36 := rfl
    rw [← List.drop_drop]
    rw [List.drop_append_of_le_length (by
      rw [mmapTableAux_length]
      omega)]
    rw [List.drop_append_of_le_length (by
      rw [List.length_drop, mmapTableAux_length]
      omega)]
    rw [List.take_append_of_le_length (by
      rw [List.length_drop, List.length_drop, mmapTableAux_length]
      omega)]
    have hdt := List.drop_take 44 36
      ((mmapTableAux imgDims (sortFiles files) 0).drop (44 * i))
    rw [mmapTableAux_slice imgDims (sortFiles files) 0 i hi] at hdt
    have h8 : (44 - 36 : Nat) = 8 := rfl
    rw [h8] at hdt
    have htt : (((mmapTableAux imgDims (sortFiles files) 0).drop (44 * i)).drop 36).take 4 =
        ((((mmapTableAux imgDims (sortFiles files) 0).drop (44 * i)).drop 36).take 8).take 4 := by
      rw [List.take_take]
      norm_num
    rw [htt, ← hdt, mmapRow_offset_field]
    rw [Nat.zero_add]
  · rw [← List.drop_drop]
    rw [packUint32_triple_drop]
    rw [← List.drop_drop]
    have hd := List.drop_left (mmapTableAux imgDims (sortFiles files) 0)
      (mergedData (sortFiles files))
    rw [mmapTableAux_length] at hd
    rw [hd]
    exact mergedData_slice (sortFiles files) i hi

/-- Witness for C1 at a concrete input, checked at entry index 1. -/
theorem spiffs_offset_table_correct_witness :
    ∃ out, spiffsGenerate (fun _ => (0, 0))
        [⟨strLit "b.txt", [7], 1, 1⟩, ⟨strLit "a.txt", [1, 2], 1, 1⟩] = some out ∧
      ((out.drop (12 + (44 * 1 + 36))).take 4 =
        packUint32 ((((sortFiles [⟨strLit "b.txt", [7], 1, 1⟩,
          ⟨strLit "a.txt", [1, 2], 1, 1⟩]).take 1).map (fun f => 2 + f.data.length)).sum)) ∧
      ((out.drop (12 + (44 * (sortFiles [⟨strLit "b.txt", [7], 1, 1⟩,
          ⟨strLit "a.txt", [1, 2], 1, 1⟩]).length +
          (((sortFiles [⟨strLit "b.txt", [7], 1, 1⟩,
            ⟨strLit "a.txt", [1, 2], 1, 1⟩]).take 1).map
              (fun f => 2 + f.data.length)).sum))).take
          (2 + ((sortFiles [⟨strLit "b.txt", [7], 1, 1⟩,
            ⟨strLit "a.txt", [1, 2], 1, 1⟩])[1]).data.length) =
        90 :: 90 :: ((sortFiles [⟨strLit "b.txt", [7], 1, 1⟩,
          ⟨strLit "a.txt", [1, 2], 1, 1⟩])[1]).data) :=
  spiffs_offset_table_correct (fun _ => (0, 0))
    [⟨strLit "b.txt", [7], 1, 1⟩, ⟨strLit "a.txt", [1, 2], 1, 1⟩] (by decide) 1 (by decide)

theorem utf16ToCodepoints_ascii :
    ∀ (s : Str), (∀ u ∈ s, u < 55296) → utf16ToCodepoints s = s := by
  intro s
  induction s with
  | nil => intro _; rfl
  | cons u rest ih =>
    intro h
    have hu : u < 55296 := h u (by simp)
    cases rest with
    | nil =>
      simp only [utf16ToCodepoints]
      have : ¬ (55296 ≤ u ∧ u ≤ 57343) := by omega
      simp [this]
    | cons v rest2 =>
      simp only [utf16ToCodepoints]
      have h1 : ¬ (55296 ≤ u ∧ u ≤ 56319) := by omega
      have h2 : ¬ (56320 ≤ u ∧ u ≤ 57343) := by omega
      simp only [h1, h2, if_false]
      rw [ih (fun x hx => h x (by simp [hx]))]

theorem textEncode_ascii (s : Str) (h : ∀ u ∈ s, 0 < u ∧ u < 128) :
    textEncode s = s := by
  unfold textEncode
  rw [utf16ToCodepoints_ascii s (fun u hu => by have := h u hu; omega)]
  induction s with
  | nil => rfl
  | cons u rest ih =>
    have hu : u < 128 := (h u (by simp)).2
    simp only [List.map_cons, List.flatten_cons]
    rw [ih (fun x hx => h x (by simp [hx]))]
    simp [utf8EncodeCodepoint, hu]

theorem takeWhile_ne_zero_padded (s : Str) (k : Nat) (h : ∀ u ∈ s, u ≠ 0) :
    (s ++ List.replicate k 0).takeWhile (fun b => b ≠ 0) = s := by
  rw [List.takeWhile_append]
  have hall : (s.takeWhile (fun b => b ≠ 0)).length = s.length := by
    rw [List.takeWhile_eq_self_iff.mpr]
    intro u hu
    simp [h u hu]
  simp only [hall, if_true]
  cases k with
  | zero => simp
  | succ k => simp [List.replicate, List.takeWhile_cons]

theorem readU32_slice (l : List Nat) (k v : Nat) (hv : v < 4294967296)
    (hs : (l.drop k).take 4 = packUint32 v) :
    readU32 l k = v := by
  have hget : ∀ j, j < 4 → l.getD (k + j) 0 = (packUint32 v).getD j 0 := by
    intro j hj
    rw [← hs]
    have h1 : l.getD (k + j) 0 = (l.drop k).getD j 0 := by
      rw [List.getD_eq_getElem?_getD, List.getD_eq_getElem?_getD,
        List.getElem?_drop]
    rw [h1]
    rw [List.getD_eq_getElem?_getD, List.getD_eq_getElem?_getD]
    rw [List.getElem?_take]
    simp [hj]
  have h0 := hget 0 (by omega)
  have h1 := hget 1 (by omega)
  have h2 := hget 2 (by omega)
  have h3 := hget 3 (by omega)
  simp only [Nat.add_zero] at h0
  unfold readU32
  rw [h0, h1, h2, h3]
  simp only [packUint32, List.getD_cons_zero, List.getD_cons_succ]
  omega

theorem readU16_slice (l : List Nat) (k w : Nat) (hw : w < 65536)
    (hs : (l.drop k).take 2 = packUint16 w) :
    l.getD k 0 + 256 * l.getD (k + 1) 0 = w := by
  have hget : ∀ j, j < 2 → l.getD (k + j) 0 = (packUint16 w).getD j 0 := by
    intro j hj
    rw [← hs]
    have h1 : l.getD (k + j) 0 = (l.drop k).getD j 0 := by
      rw [List.getD_eq_getElem?_getD, List.getD_eq_getElem?_getD,
        List.getElem?_drop]
    rw [h1]
    rw [List.getD_eq_getElem?_getD, List.getD_eq_getElem?_getD]
    rw [List.getElem?_take]
    simp [hj]
  have h0 := hget 0 (by omega)
  have h1 := hget 1 (by omega)
  simp only [Nat.add_zero] at h0
  rw [h0, h1]
  simp only [packUint16, List.getD_cons_zero, List.getD_cons_succ]
  omega

theorem mmapRow_name_field (imgDims : List Nat → Nat × Nat) (f : SFile) (off : Nat) :
    (mmapRow imgDims f off).take 32 = spiffsPackString f.filename 32 := by
  unfold mmapRow
  rw [List.append_assoc, List.append_assoc, List.append_assoc]
  have ht := List.take_left (spiffsPackString f.filename 32)
    (packUint32 f.data.length ++ (packUint32 off ++
      (packUint16 (resolveDims imgDims f).1 ++ packUint16 (resolveDims imgDims f).2)))
  rw [spiffsPackString_length] at ht
  exact ht

theorem mmapRow_size_field (imgDims : List Nat → Nat × Nat) (f : SFile) (off : Nat) :
    ((mmapRow imgDims f off).drop 32).take 4 = packUint32 f.data.length := by
  unfold mmapRow
  rw [List.append_assoc, List.append_assoc, List.append_assoc]
  have h32 := List.drop_left (spiffsPackString f.filename 32)
    (packUint32 f.data.length ++ (packUint32 off ++
      (packUint16 (resolveDims imgDims f).1 ++ packUint16 (resolveDims imgDims f).2)))
  rw [spiffsPackString_length] at h32
  rw [h32]
  have ht := List.take_left (packUint32 f.data.length)
    (packUint32 off ++
      (packUint16 (resolveDims imgDims f).1 ++ packUint16 (resolveDims imgDims f).2))
  rw [packUint32_length] at ht
  exact ht

theorem mmapRow_width_field (imgDims : List Nat → Nat × Nat) (f : SFile) (off : Nat) :
    ((mmapRow imgDims f off).drop 40).take 2 = packUint16 (resolveDims imgDims f).1 := by
  unfold mmapRow
  rw [List.append_assoc, List.append_assoc, List.append_assoc]
  have h32 := List.drop_left (spiffsPackString f.filename 32)
    (packUint32 f.data.length ++ (packUint32 off ++
      (packUint16 (resolveDims imgDims f).1 ++ packUint16 (resolveDims imgDims f).2)))
  rw [spiffsPackString_length] at h32
  have hdd : (40 : Nat) = 32 + 8 := rfl
  rw [hdd, ← List.drop_drop, h32]
  have h4 := List.drop_left (packUint32 f.data.length)
    (packUint32 off ++
      (packUint16 (resolveDims imgDims f).1 ++ packUint16 (resolveDims imgDims f).2))
  rw [packUint32_length] at h4
  have hdd2 : (8 : Nat) = 4 + 4 := rfl
  rw [hdd2, ← List.drop_drop, h4]
  have h4b := List.drop_left (packUint32 off)
    (packUint16 (resolveDims imgDims f).1 ++ packUint16 (resolveDims imgDims f).2)
  rw [packUint32_length] at h4b
  rw [h4b]
  have ht := List.take_left (packUint16 (resolveDims imgDims f).1)
    (packUint16 (resolveDims imgDims f).2)
  rw [packUint16_length] at ht
  exact ht

theorem mmapRow_height_field (imgDims : List Nat → Nat × Nat) (f : SFile) (off : Nat) :
    ((mmapRow imgDims f off).drop 42).take 2 = packUint16 (resolveDims imgDims f).2 := by
  unfold mmapRow
  rw [List.append_assoc, List.append_assoc, List.append_assoc]
  have h32 := List.drop_left (spiffsPackString f.filename 32)
    (packUint32 f.data.length ++ (packUint32 off ++
      (packUint16 (resolveDims imgDims f).1 ++ packUint16 (resolveDims imgDims f).2)))
  rw [spiffsPackString_length] at h32
  have hdd : (42 : Nat) = 32 + 10 := rfl
  rw [hdd, ← List.drop_drop, h32]
  have h4 := List.drop_left (packUint32 f.data.length)
    (packUint32 off ++
      (packUint16 (resolveDims imgDims f).1 ++ packUint16 (resolveDims imgDims f).2))
  rw [packUint32_length] at h4
  have hdd2 : (10 : Nat) = 4 + 6 := rfl
  rw [hdd2, ← List.drop_drop, h4]
  have h4b := List.drop_left (packUint32 off)
    (packUint16 (resolveDims imgDims f).1 ++ packUint16 (resolveDims imgDims f).2)
  rw [packUint32_length] at h4b
  have hdd3 : (6 : Nat) = 4 + 2 := rfl
  rw [hdd3, ← List.drop_drop, h4b]
  have h2 := List.drop_left (packUint16 (resolveDims imgDims f).1)
    (packUint16 (resolveDims imgDims f).2)
  rw [packUint16_length] at h2
  rw [h2]
  simp [packUint16]

/-- Modelled from the spec: the repository ships no unpacker, so the reader
described in spec sections 4.6 and 8 is modelled here.  It reads `fileCount`
at offset 0, then for each entry the 44-byte table row `{name[32]
zero-padded, size:u32, offset:u32, width:u16, height:u16}` and slices `size`
bytes at `offset + 2` of the data region, skipping the `0x5A 0x5A` marker. -/
def unpackEntry (out : List Nat) (n i : Nat) : SFile :=
  let row := (out.drop (12 + 44 * i)).take 44
  { filename := (row.take 32).takeWhile (fun b => b ≠ 0)
    data := ((out.drop (12 + 44 * n)).drop (readU32 row 36 + 2)).take (readU32 row 32)
    width := row.getD 40 0 + 256 * row.getD 41 0
    height := row.getD 42 0 + 256 * row.getD 43 0 }

/-- Modelled from the spec: reader for the whole container. -/
def unpackContainer (out : List Nat) : List SFile :=
  (List.range (readU32 out 0)).map (fun i => unpackEntry out (readU32 out 0) i)

/-- The logical entry a packed entry denotes: same name and bytes, with the
dimensions resolved at pack time. -/
def recoverEntry (imgDims : List Nat → Nat × Nat) (f : SFile) : SFile :=
  { filename := f.filename, data := f.data,
    width := (resolveDims imgDims f).1, height := (resolveDims imgDims f).2 }

theorem getD_lt_256 (l : List Nat) (i : Nat) (h : ∀ b ∈ l, b < 256) :
    l.getD i 0 < 256 := by
  rw [List.getD_eq_getElem?_getD]
  rcases hg : l[i]? with _ | x
  · simp
  · have hx : x ∈ l := List.getElem?_mem hg
    simpa using h x hx

theorem resolveDims_lt (imgDims : List Nat → Nat × Nat)
    (himg : ∀ d, (imgDims d).1 < 65536 ∧ (imgDims d).2 < 65536) (f : SFile)
    (hw : f.width < 65536) (hh : f.height < 65536)
    (hdata : ∀ b ∈ f.data, b < 256) :
    (resolveDims imgDims f).1 < 65536 ∧ (resolveDims imgDims f).2 < 65536 := by
  unfold resolveDims
  by_cases h0 : f.width = 0 ∧ f.height = 0
  · simp only [h0, if_true]
    by_cases hsp : 0 < (parseSpecialImageFormat f.filename f.data).1 ∨
        0 < (parseSpecialImageFormat f.filename f.data).2
    · simp only [hsp, if_true]
      unfold parseSpecialImageFormat
      by_cases he : (46 :: fileExt (asciiLower f.filename)) = strLit ".sjpg" ∨
          (46 :: fileExt (asciiLower f.filename)) = strLit ".spng" ∨
          (46 :: fileExt (asciiLower f.filename)) = strLit ".sqoi"
      · simp only [he, if_true]
        by_cases hl : 18 ≤ f.data.length
        · simp only [hl, if_true]
          have h14 := getD_lt_256 f.data 14 hdata
          have h15 := getD_lt_256 f.data 15 hdata
          have h16 := getD_lt_256 f.data 16 hdata
          have h17 := getD_lt_256 f.data 17 hdata
          refine ⟨?_, ?_⟩
          · show f.data.getD 14 0 + 256 * f.data.getD 15 0 < 65536
            omega
          · show f.data.getD 16 0 + 256 * f.data.getD 17 0 < 65536
            omega
        · simp [hl]
      · simp [he]
    · simp only [hsp, if_false]
      by_cases hext : fileExt (asciiLower f.filename) = strLit "png" ∨
          fileExt (asciiLower f.filename) = strLit "jpg" ∨
          fileExt (asciiLower f.filename) = strLit "jpeg" ∨
          fileExt (asciiLower f.filename) = strLit "gif" ∨
          fileExt (asciiLower f.filename) = strLit "bmp" ∨
          fileExt (asciiLower f.filename) = strLit "webp"
      · simp only [hext, if_true]
        exact himg f.data
      · simp [hext]
  · simp [h0, hw, hh]

theorem resolveDims_recover (imgDims : List Nat → Nat × Nat) (f : SFile) :
    resolveDims imgDims (recoverEntry imgDims f) = resolveDims imgDims f := by
  by_cases hp : resolveDims imgDims f = (0, 0)
  · have hw : (recoverEntry imgDims f).width = 0 := by
      simp [recoverEntry, hp]
    have hh : (recoverEntry imgDims f).height = 0 := by
      simp [recoverEntry, hp]
    have hfw : f.width = 0 ∧ f.height = 0 := by
      by_contra hc
      have : resolveDims imgDims f = (f.width, f.height) := by
        unfold resolveDims
        simp [hc]
      rw [this] at hp
      simp at hp
      exact hc ⟨hp.1, hp.2⟩
    conv_lhs => unfold resolveDims
    simp only [hw, hh, and_self, if_true]
    conv_rhs => rw [show resolveDims imgDims f =
      (if f.width = 0 ∧ f.height = 0 then
        (let sp := parseSpecialImageFormat f.filename f.data
         if 0 < sp.1 ∨ 0 < sp.2 then sp
         else
           let ext := fileExt (asciiLower f.filename)
           if ext = strLit "png" ∨ ext = strLit "jpg" ∨ ext = strLit "jpeg" ∨
               ext = strLit "gif" ∨ ext = strLit "bmp" ∨ ext = strLit "webp" then
             imgDims f.data
           else (0, 0))
       else (f.width, f.height)) from rfl]
    simp only [hfw, and_self, if_true]
    simp only [recoverEntry]
  · have hne : ¬ ((recoverEntry imgDims f).width = 0 ∧
        (recoverEntry imgDims f).height = 0) := by
      simp only [recoverEntry]
      intro hc
      apply hp
      have h1 := hc.1
      have h2 := hc.2
      exact Prod.ext h1 h2
    conv_lhs => unfold resolveDims
    simp only [hne, if_false]
    simp [recoverEntry]

theorem mmapRow_recover (imgDims : List Nat → Nat × Nat) (f : SFile) (off : Nat) :
    mmapRow imgDims (recoverEntry imgDims f) off = mmapRow imgDims f off := by
  unfold mmapRow
  rw [resolveDims_recover]
  rfl

theorem mmapTableAux_recover (imgDims : List Nat → Nat × Nat) :
    ∀ (fs : List SFile) (off : Nat),
      mmapTableAux imgDims (fs.map (recoverEntry imgDims)) off = mmapTableAux imgDims fs off := by
  intro fs
  induction fs with
  | nil => intro off; rfl
  | cons f fs ih =>
    intro off
    simp only [List.map_cons, mmapTableAux, mmapRow_recover]
    rw [ih]
    rfl

theorem mergedData_recover (imgDims : List Nat → Nat × Nat) (fs : List SFile) :
    mergedData (fs.map (recoverEntry imgDims)) = mergedData fs := by
  unfold mergedData
  rw [List.map_map]
  rfl

theorem sorted_map_recover (imgDims : List Nat → Nat × Nat) (l : List SFile) :
    ((sortFiles l).map (recoverEntry imgDims)).Sorted sortFilesR := by
  have hs := List.sorted_insertionSort sortFilesR l
  unfold List.Sorted at hs ⊢
  rw [List.pairwise_map]
  exact hs

theorem sum_take_le (g : SFile → Nat) (s : List SFile) (i : Nat) :
    ((s.take i).map g).sum ≤ (s.map g).sum := by
  conv_rhs => rw [← List.take_append_drop i s]
  rw [List.map_append, List.sum_append]
  exact Nat.le_add_right _ _

theorem elem_le_sum (g : SFile → Nat) (s : List SFile) (i : Nat) (hi : i < s.length) :
    g s[i] ≤ (s.map g).sum := by
  have hmem : g s[i] ∈ s.map g := List.mem_map.mpr ⟨s[i], List.getElem_mem hi, rfl⟩
  exact List.single_le_sum (fun _ _ => Nat.zero_le _) _ hmem

theorem unpackContainer_spiffs (imgDims : List Nat → Nat × Nat) (l : List SFile)
    (hne : l.length ≠ 0)
    (hascii : ∀ f ∈ l, ∀ u ∈ f.filename, 0 < u ∧ u < 128)
    (hshort : ∀ f ∈ l, f.filename.length ≤ 32)
    (hdata : ∀ f ∈ l, ∀ b ∈ f.data, b < 256)
    (hwlt : ∀ f ∈ l, f.width < 65536) (hhlt : ∀ f ∈ l, f.height < 65536)
    (himg : ∀ d, (imgDims d).1 < 65536 ∧ (imgDims d).2 < 65536)
    (hn : l.length < 4294967296)
    (hsum : (l.map (fun f => 2 + f.data.length)).sum < 4294967296)
    (out : List Nat) (hout : spiffsGenerate imgDims l = some out) :
    unpackContainer out = (sortFiles l).map (recoverEntry imgDims) := by
  rw [spiffsGenerate_eq imgDims l hne] at hout
  have hout2 := Option.some.inj hout
  subst hout2
  set s := sortFiles l with hs_def
  set T := mmapTableAux imgDims s 0 with hT_def
  set M := mergedData s with hM_def
  have hpermS : s.Perm l := List.perm_insertionSort _ l
  have hslen : s.length = l.length := hpermS.length_eq
  have hsum_s : (s.map (fun f => 2 + f.data.length)).sum =
      (l.map (fun f => 2 + f.data.length)).sum := (hpermS.map _).sum_eq
  have hTlen : T.length = 44 * s.length := by
    rw [hT_def, mmapTableAux_length]
  have hread0 : readU32 (packUint32 s.length ++ packUint32 (computeChecksum (T ++ M)) ++
      packUint32 (T ++ M).length ++ (T ++ M)) 0 = s.length := by
    apply readU32_slice _ _ _ (by omega)
    rw [List.drop_zero, List.append_assoc, List.append_assoc]
    have ht := List.take_left (packUint32 s.length)
      (packUint32 (computeChecksum (T ++ M)) ++ (packUint32 (T ++ M).length ++ (T ++ M)))
    rw [packUint32_length] at ht
    exact ht
  unfold unpackContainer
  rw [hread0]
  apply List.ext_getElem
  · simp
  · intro i h1 h2
    have hi : i < s.length := by simpa using h1
    have hmemI : s[i] ∈ l := hpermS.subset (List.getElem_mem hi)
    simp only [List.getElem_map, List.getElem_range]
    have hrowEq : (((packUint32 s.length ++ packUint32 (computeChecksum (T ++ M)) ++
        packUint32 (T ++ M).length ++ (T ++ M)).drop (12 + 44 * i)).take 44) =
        mmapRow imgDims s[i] (((s.take i).map (fun f => 2 + f.data.length)).sum) := by
      rw [← List.drop_drop, packUint32_triple_drop]
      rw [List.drop_append_of_le_length (by rw [hTlen]; omega)]
      rw [List.take_append_of_le_length (by rw [List.length_drop, hTlen]; omega)]
      rw [hT_def, mmapTableAux_slice imgDims s 0 i hi, Nat.zero_add]
    have hofflt : ((s.take i).map (fun f => 2 + f.data.length)).sum < 4294967296 := by
      have := sum_take_le (fun f => 2 + f.data.length) s i
      omega
    have hsizelt : s[i].data.length < 4294967296 := by
      have := elem_le_sum (fun f => 2 + f.data.length) s i hi
      simp only at this
      omega
    have hoff : readU32 (((packUint32 s.length ++ packUint32 (computeChecksum (T ++ M)) ++
        packUint32 (T ++ M).length ++ (T ++ M)).drop (12 + 44 * i)).take 44) 36 =
        ((s.take i).map (fun f => 2 + f.data.length)).sum := by
      apply readU32_slice _ _ _ hofflt
      rw [hrowEq, mmapRow_offset_field]
    have hsize : readU32 (((packUint32 s.length ++ packUint32 (computeChecksum (T ++ M)) ++
        packUint32 (T ++ M).length ++ (T ++ M)).drop (12 + 44 * i)).take 44) 32 =
        s[i].data.length := by
      apply readU32_slice _ _ _ hsizelt
      rw [hrowEq, mmapRow_size_field]
    have hdropM : (packUint32 s.length ++ packUint32 (computeChecksum (T ++ M)) ++
        packUint32 (T ++ M).length ++ (T ++ M)).drop (12 + 44 * s.length) = M := by
      rw [← List.drop_drop, packUint32_triple_drop]
      have hd := List.drop_left T M
      rw [hTlen] at hd
      exact hd
    have hrdlt := resolveDims_lt imgDims himg s[i] (hwlt _ hmemI) (hhlt _ hmemI)
      (hdata _ hmemI)
    simp only [unpackEntry, recoverEntry]
    simp only [SFile.mk.injEq]
    refine ⟨?_, ?_, ?_, ?_⟩
    · rw [hrowEq, mmapRow_name_field]
      unfold spiffsPackString
      rw [textEncode_ascii _ (hascii _ hmemI)]
      simp only [Nat.min_eq_left (hshort _ hmemI)]
      rw [List.take_length]
      exact takeWhile_ne_zero_padded _ _ (fun u hu => by
        have := hascii _ hmemI u hu
        omega)
    · rw [hoff, hsize, hdropM]
      rw [← List.drop_drop]
      have hslice2 := mergedData_slice s i hi
      have hdt := List.drop_take (2 + s[i].data.length) 2
        (M.drop (((s.take i).map (fun f => 2 + f.data.length)).sum))
      rw [hM_def] at hdt
      rw [hslice2] at hdt
      simp only [List.drop_succ_cons, List.drop_zero] at hdt
      have h2c : 2 + s[i].data.length - 2 = s[i].data.length := by omega
      rw [h2c] at hdt
      rw [← hM_def] at hdt
      exact hdt.symm
    · have hw16 := readU16_slice (((packUint32 s.length ++
          packUint32 (computeChecksum (T ++ M)) ++ packUint32 (T ++ M).length ++
          (T ++ M)).drop (12 + 44 * i)).take 44) 40 (resolveDims imgDims s[i]).1
        hrdlt.1 (by rw [hrowEq, mmapRow_width_field])
      exact hw16
    · have hh16 := readU16_slice (((packUint32 s.length ++
          packUint32 (computeChecksum (T ++ M)) ++ packUint32 (T ++ M).length ++
          (T ++ M)).drop (12 + 44 * i)).take 44) 42 (resolveDims imgDims s[i]).2
        hrdlt.2 (by rw [hrowEq, mmapRow_height_field])
      exact hh16

/-- **C3** (amended) Packing sorts entries by the case-insensitively compared
key (extension, stem); provided no two entries tie on that sort key, any two
permutations of the entries produce byte-identical output, and (for entries
whose names are non-NUL ASCII of at most 32 code units, whose data are bytes,
whose dimensions fit 16 bits, and whose sizes fit the 32-bit fields)
unpacking a packed container and re-packing the recovered entries reproduces
the packed bytes exactly. -/
theorem spiffs_pack_deterministic (imgDims : List Nat → Nat × Nat)
    (l₁ l₂ : List SFile) (hperm : l₁.Perm l₂)
    (hkeys : l₁.Pairwise (fun a b => fileKey a ≠ fileKey b)) :
    (sortFiles l₁).Sorted sortFilesR ∧
    spiffsGenerate imgDims l₁ = spiffsGenerate imgDims l₂ ∧
    ((∀ f ∈ l₁, ∀ u ∈ f.filename, 0 < u ∧ u < 128) →
     (∀ f ∈ l₁, f.filename.length ≤ 32) →
     (∀ f ∈ l₁, ∀ b ∈ f.data, b < 256) →
     (∀ f ∈ l₁, f.width < 65536) → (∀ f ∈ l₁, f.height < 65536) →
     (∀ d, (imgDims d).1 < 65536 ∧ (imgDims d).2 < 65536) →
     l₁.length < 4294967296 →
     (l₁.map (fun f => 2 + f.data.length)).sum < 4294967296 →
     ∀ out, spiffsGenerate imgDims l₁ = some out →
       spiffsGenerate imgDims (unpackContainer out) = some out) := by
  have hanti : ∀ a ∈ l₁, ∀ b ∈ l₁, sortFilesR a b → sortFilesR b a → a = b := by
    intro a ha b hb hab hba
    by_cases heq : a = b
    · exact heq
    · have hkey := sortFilesR_antisymm_key a b hab hba
      have hne := List.Pairwise.forall (by
        intro x y hxy
        exact fun h => hxy h.symm) hkeys ha hb heq
      exact absurd hkey hne
  refine ⟨List.sorted_insertionSort sortFilesR l₁, ?_, ?_⟩
  · unfold spiffsGenerate sortFiles
    rw [hperm.length_eq,
      insertionSort_eq_of_perm sortFilesR l₁ l₂ hperm hanti]
  · intro hascii hshort hdata hwlt hhlt himg hn hsum out hout
    have hne : l₁.length ≠ 0 := by
      intro h0
      unfold spiffsGenerate at hout
      rw [if_pos h0] at hout
      cases hout
    rw [unpackContainer_spiffs imgDims l₁ hne hascii hshort hdata hwlt hhlt himg
      hn hsum out hout]
    have hlenmap : ((sortFiles l₁).map (recoverEntry imgDims)).length = l₁.length := by
      rw [List.length_map]
      exact (List.perm_insertionSort _ l₁).length_eq
    have hss : sortFiles ((sortFiles l₁).map (recoverEntry imgDims)) =
        (sortFiles l₁).map (recoverEntry imgDims) := by
      unfold sortFiles
      exact List.Sorted.insertionSort_eq (sorted_map_recover imgDims l₁)
    unfold spiffsGenerate
    rw [if_neg (by rw [hlenmap]; exact hne)]
    rw [hss]
    simp only [mmapTableAux_recover, mergedData_recover, List.length_map]
    rw [spiffsGenerate_eq imgDims l₁ hne] at hout
    exact hout

/-- Counterexample to C3 as stated: two entries with the same filename tie on
the (extension, stem) sort key, the stable sort keeps the input order, so the
two permutations of the same multiset pack to different bytes. -/
theorem spiffs_pack_permutation_counterexample :
    ([⟨strLit "a.png", [0], 1, 1⟩, ⟨strLit "a.png", [1], 1, 1⟩] : List SFile).Perm
      [⟨strLit "a.png", [1], 1, 1⟩, ⟨strLit "a.png", [0], 1, 1⟩] ∧
    spiffsGenerate (fun _ => (0, 0))
        [⟨strLit "a.png", [0], 1, 1⟩, ⟨strLit "a.png", [1], 1, 1⟩] ≠
      spiffsGenerate (fun _ => (0, 0))
        [⟨strLit "a.png", [1], 1, 1⟩, ⟨strLit "a.png", [0], 1, 1⟩] := by
  constructor
  · decide
  · decide

/-- Witness for C3 (amended) at a concrete distinct-key input. -/
theorem spiffs_pack_deterministic_witness :
    (sortFiles [⟨strLit "b.png", [3], 1, 1⟩, ⟨strLit "a.png", [4], 1, 1⟩]).Sorted sortFilesR ∧
    spiffsGenerate (fun _ => (0, 0))
        [⟨strLit "b.png", [3], 1, 1⟩, ⟨strLit "a.png", [4], 1, 1⟩] =
      spiffsGenerate (fun _ => (0, 0))
        [⟨strLit "a.png", [4], 1, 1⟩, ⟨strLit "b.png", [3], 1, 1⟩] ∧
    ((∀ f ∈ ([⟨strLit "b.png", [3], 1, 1⟩, ⟨strLit "a.png", [4], 1, 1⟩] : List SFile),
        ∀ u ∈ f.filename, 0 < u ∧ u < 128) →
     (∀ f ∈ ([⟨strLit "b.png", [3], 1, 1⟩, ⟨strLit "a.png", [4], 1, 1⟩] : List SFile),
        f.filename.length ≤ 32) →
     (∀ f ∈ ([⟨strLit "b.png", [3], 1, 1⟩, ⟨strLit "a.png", [4], 1, 1⟩] : List SFile),
        ∀ b ∈ f.data, b < 256) →
     (∀ f ∈ ([⟨strLit "b.png", [3], 1, 1⟩, ⟨strLit "a.png", [4], 1, 1⟩] : List SFile),
        f.width < 65536) →
     (∀ f ∈ ([⟨strLit "b.png", [3], 1, 1⟩, ⟨strLit "a.png", [4], 1, 1⟩] : List SFile),
        f.height < 65536) →
     (∀ d : List Nat, ((fun (_ : List Nat) => ((0, 0) : Nat × Nat)) d).1 < 65536 ∧
        ((fun (_ : List Nat) => ((0, 0) : Nat × Nat)) d).2 < 65536) →
     ([⟨strLit "b.png", [3], 1, 1⟩, ⟨strLit "a.png", [4], 1, 1⟩] : List SFile).length <
        4294967296 →
     (([⟨strLit "b.png", [3], 1, 1⟩, ⟨strLit "a.png", [4], 1, 1⟩] : List SFile).map
        (fun f => 2 + f.data.length)).sum < 4294967296 →
     ∀ out, spiffsGenerate (fun _ => (0, 0))
         [⟨strLit "b.png", [3], 1, 1⟩, ⟨strLit "a.png", [4], 1, 1⟩] = some out →
       spiffsGenerate (fun _ => (0, 0)) (unpackContainer out) = some out) :=
  spiffs_pack_deterministic (fun _ => (0, 0))
    [⟨strLit "b.png", [3], 1, 1⟩, ⟨strLit "a.png", [4], 1, 1⟩]
    [⟨strLit "a.png", [4], 1, 1⟩, ⟨strLit "b.png", [3], 1, 1⟩]
    (by decide) (by decide)

theorem spiffsPackString_eq_take (s : Str) :
    spiffsPackString s 32 =
      (textEncode s).take 32 ++
        List.replicate (32 - ((textEncode s).take 32).length) 0 := by
  simp only [spiffsPackString]
  by_cases h : (textEncode s).length ≤ 32
  · rw [Nat.min_eq_left h, List.take_length, List.take_of_length_le h]
  · rw [Nat.min_eq_right (le_of_lt (not_le.mp h)), List.length_take,
      Nat.min_eq_left (le_of_lt (not_le.mp h))]

/-- **C9** (implicit) Packing never fails because of a long filename: for any
non-empty entry list the generator produces output; the 32-byte name field
stores exactly the first 32 UTF-8 bytes of the name when the encoding is 32
bytes or longer (no terminator), zero-pads only when it is shorter, and two
entries whose names share their first 32 UTF-8 bytes get identical name
fields in the mapping table. -/
theorem spiffs_name_truncation (imgDims : List Nat → Nat × Nat) :
    (∀ files : List SFile, files ≠ [] → (spiffsGenerate imgDims files).isSome) ∧
    (∀ s : Str, 32 ≤ (textEncode s).length →
      spiffsPackString s 32 = (textEncode s).take 32) ∧
    (∀ s : Str, (textEncode s).length < 32 →
      spiffsPackString s 32 =
        textEncode s ++ List.replicate (32 - (textEncode s).length) 0) ∧
    (∀ (f₁ f₂ : SFile) (off₁ off₂ : Nat),
      (textEncode f₁.filename).take 32 = (textEncode f₂.filename).take 32 →
      (mmapRow imgDims f₁ off₁).take 32 = (mmapRow imgDims f₂ off₂).take 32) := by
  refine ⟨?_, ?_, ?_, ?_⟩
  · intro files hne
    unfold spiffsGenerate
    rw [if_neg (fun h => hne (List.length_eq_zero.mp h))]
    rfl
  · intro s h
    rw [spiffsPackString_eq_take, List.length_take, Nat.min_eq_left h]
    simp
  · intro s h
    rw [spiffsPackString_eq_take, List.take_of_length_le (le_of_lt h)]
  · intro f₁ f₂ off₁ off₂ htake
    rw [mmapRow_name_field, mmapRow_name_field,
      spiffsPackString_eq_take, spiffsPackString_eq_take, htake]

/-- Witness for C9 at names of 33 code units sharing their first 32 bytes. -/
theorem spiffs_name_truncation_witness :
    (spiffsGenerate (fun _ => (0, 0))
      [⟨strLit "aaaaaaaaaaaaaaaaaaaaaaaaaaaaaaaax.txt", [1], 1, 1⟩]).isSome ∧
    spiffsPackString (strLit "aaaaaaaaaaaaaaaaaaaaaaaaaaaaaaaax.txt") 32 =
      (textEncode (strLit "aaaaaaaaaaaaaaaaaaaaaaaaaaaaaaaax.txt")).take 32 ∧
    spiffsPackString (strLit "ab.txt") 32 =
      textEncode (strLit "ab.txt") ++
        List.replicate (32 - (textEncode (strLit "ab.txt")).length) 0 ∧
    (mmapRow (fun _ => (0, 0))
        ⟨strLit "aaaaaaaaaaaaaaaaaaaaaaaaaaaaaaaax.txt", [1], 1, 1⟩ 0).take 32 =
      (mmapRow (fun _ => (0, 0))
        ⟨strLit "aaaaaaaaaaaaaaaaaaaaaaaaaaaaaaaay.txt", [2], 1, 1⟩ 7).take 32 :=
  ⟨((spiffs_name_truncation (fun _ => (0, 0))).1 _ (by decide)),
   ((spiffs_name_truncation (fun _ => (0, 0))).2.1 _ (by decide)),
   ((spiffs_name_truncation (fun _ => (0, 0))).2.2.1 _ (by decide)),
   ((spiffs_name_truncation (fun _ => (0, 0))).2.2.2 _ _ 0 7 (by decide))⟩

/-! ## CBinFont writer (src/web/src/utils/font_conv/writers/CBinFont.js) -/

/-- Options read by the `CBinFont` constructor. -/
structure CBinOptions where
  bpp : Nat
  no_compress : Bool
  lv_font_name : Option Str
  output : Option Str

/-- The `AppError` thrown by the writer (message only). -/
structure AppError where
  message : Str
deriving DecidableEq

/-- JavaScript falsiness of an optional string (`undefined` or `''`). -/
def strFalsy : Option Str → Bool
  | none => true
  | some s => s.isEmpty

/-- Translation of the `CBinFont` constructor: resolve `font_name` through
the falsy-or chain, then throw `AppError` when `options.bpp === 3 &&
options.no_compress`, before any table processing starts. -/
def cbinFontNew (opts : CBinOptions) : Except AppError Str :=
  let font_name := if strFalsy opts.lv_font_name then
      (if strFalsy opts.output then strLit "font" else opts.output.getD [])
    else opts.lv_font_name.getD []
  if opts.bpp = 3 ∧ opts.no_compress then
    Except.error ⟨strLit "LVGL supports \"--bpp 3\" with compression only"⟩
  else Except.ok font_name

/-- **C8** Constructing the font encoder fails with the `AppError`
(`ConfigError` of the spec) exactly when `bpp = 3` and compression is
disabled; for every other bpp value, and for `bpp = 3` with compression
enabled, this error is not raised and the constructor succeeds. -/
theorem cbin_bpp3_requires_compression (opts : CBinOptions) :
    (cbinFontNew opts =
      Except.error ⟨strLit "LVGL supports \"--bpp 3\" with compression only"⟩) ↔
    (opts.bpp = 3 ∧ opts.no_compress = true) := by
  unfold cbinFontNew
  by_cases h : opts.bpp = 3 ∧ opts.no_compress = true
  · rw [if_pos h]
    simp [h]
  · rw [if_neg h]
    constructor
    · intro hc
      cases hc
    · intro hc
      exact absurd hc h

/-- A glyph as supplied to the writer by the font source. -/
structure Glyph where
  code : Nat
  advanceWidth : ℚ
  bboxX : Int
  bboxY : Int
  bboxW : Nat
  bboxH : Nat
  pixels : List (List Nat)
deriving DecidableEq

/-- Translation of `CmapTable.buildGlyphIdMap`:
`glyphs.forEach((glyph, index) => glyph_id[glyph.code] = index + 1)`;
later assignments override earlier ones, and an absent code reads as 0
(`undefined` is falsy wherever the map is consulted). -/
def glyphId (gs : List Glyph) (c : Nat) : Nat :=
  gs.enum.foldl (fun acc p => if p.2.code = c then p.1 + 1 else acc) 0

/-- Minimal glyph used for concrete inputs. -/
def mkGlyph (c : Nat) : Glyph := ⟨c, 0, 0, 0, 0, 0, []⟩

theorem foldl_enumFrom_no_match (c : Nat) :
    ∀ (gs : List Glyph) (k acc : Nat), (∀ g ∈ gs, g.code ≠ c) →
      ((gs.enumFrom k).foldl (fun acc p => if p.2.code = c then p.1 + 1 else acc) acc) =
        acc := by
  intro gs
  induction gs with
  | nil => intro k acc _; rfl
  | cons g t ih =>
    intro k acc h
    simp only [List.enumFrom, List.foldl_cons]
    rw [if_neg (h g (by simp))]
    exact ih (k + 1) acc (fun x hx => h x (by simp [hx]))

theorem foldl_enumFrom_unique (c : Nat) :
    ∀ (gs : List Glyph) (k acc i : Nat) (hi : i < gs.length),
      gs[i].code = c → (∀ j (hj : j < gs.length), j ≠ i → gs[j].code ≠ c) →
      ((gs.enumFrom k).foldl (fun acc p => if p.2.code = c then p.1 + 1 else acc) acc) =
        k + i + 1 := by
  intro gs
  induction gs with
  | nil => intro k acc i hi; simp at hi
  | cons g t ih =>
    intro k acc i hi hc huniq
    cases i with
    | zero =>
      simp only [List.getElem_cons_zero] at hc
      simp only [List.enumFrom, List.foldl_cons]
      rw [if_pos hc]
      rw [foldl_enumFrom_no_match c t (k + 1) (k + 1) (fun x hx => by
        obtain ⟨j, hj, hx⟩ := List.mem_iff_getElem.mp hx
        have := huniq (j + 1) (by simpa using hj) (by omega)
        simpa [hx] using this)]
    | succ i =>
      simp only [List.getElem_cons_succ] at hc
      simp only [List.enumFrom, List.foldl_cons]
      rw [if_neg (by
        have := huniq 0 (by simp) (by omega)
        simpa using this)]
      rw [ih (k + 1) acc i (by simpa using hi) hc (fun j hj hne => by
        have := huniq (j + 1) (by simpa using hj) (by omega)
        simpa using this)]
      omega

theorem glyphId_getElem (gs : List Glyph) (i : Nat) (hi : i < gs.length)
    (huniq : ∀ j (hj : j < gs.length), j ≠ i → gs[j].code ≠ gs[i].code) :
    glyphId gs gs[i].code = i + 1 := by
  unfold glyphId
  rw [show gs.enum = gs.enumFrom 0 from rfl]
  rw [foldl_enumFrom_unique gs[i].code gs 0 0 i hi rfl huniq]
  omega

/-- **C5** (amended) The glyph-id map assigns the dense ids `1..N` in the
order the glyphs appear in the input sequence; when that sequence is sorted
strictly ascending by codepoint, `glyphId` is strictly increasing on the
codepoints present. -/
theorem glyphId_assignment (gs : List Glyph)
    (hsorted : gs.Pairwise (fun a b => a.code < b.code)) :
    (∀ i (hi : i < gs.length), glyphId gs (gs[i].code) = i + 1) ∧
    (∀ c₁ c₂, c₁ ∈ gs.map (fun g => g.code) → c₂ ∈ gs.map (fun g => g.code) →
      c₁ < c₂ → glyphId gs c₁ < glyphId gs c₂) := by
  have hpg := List.pairwise_iff_getElem.mp hsorted
  have huniq : ∀ i (hi : i < gs.length) j (hj : j < gs.length), j ≠ i →
      gs[j].code ≠ gs[i].code := by
    intro i hi j hj hne
    rcases Nat.lt_or_ge j i with h | h
    · exact Nat.ne_of_lt (hpg j i hj hi h)
    · have hlt : i < j := by omega
      exact (Nat.ne_of_lt (hpg i j hi hj hlt)).symm
  constructor
  · intro i hi
    exact glyphId_getElem gs i hi (huniq i hi)
  · intro c₁ c₂ h₁ h₂ hlt
    obtain ⟨g₁, hg₁, hc₁⟩ := List.mem_map.mp h₁
    obtain ⟨g₂, hg₂, hc₂⟩ := List.mem_map.mp h₂
    obtain ⟨i₁, hi₁, he₁⟩ := List.mem_iff_getElem.mp hg₁
    obtain ⟨i₂, hi₂, he₂⟩ := List.mem_iff_getElem.mp hg₂
    have hid₁ : glyphId gs c₁ = i₁ + 1 := by
      rw [← hc₁, ← he₁]
      exact glyphId_getElem gs i₁ hi₁ (huniq i₁ hi₁)
    have hid₂ : glyphId gs c₂ = i₂ + 1 := by
      rw [← hc₂, ← he₂]
      exact glyphId_getElem gs i₂ hi₂ (huniq i₂ hi₂)
    rw [hid₁, hid₂]
    have hi12 : i₁ < i₂ := by
      by_contra hcon
      rcases Nat.lt_or_ge i₂ i₁ with hlt2 | hge
      · have hcc := hpg i₂ i₁ hi₂ hi₁ hlt2
        rw [he₁, he₂, hc₁, hc₂] at hcc
        omega
      · have heq : i₁ = i₂ := by omega
        have hceq : c₁ = c₂ := by
          rw [← hc₁, ← hc₂, ← he₁, ← he₂]
          simp only [heq]
        omega
    omega

/-- Witness for C5 at a concrete sorted two-glyph input. -/
theorem glyphId_assignment_witness :
    (∀ i (hi : i < ([mkGlyph 65, mkGlyph 66] : List Glyph).length),
      glyphId [mkGlyph 65, mkGlyph 66] (([mkGlyph 65, mkGlyph 66] : List Glyph)[i].code) =
        i + 1) ∧
    (∀ c₁ c₂, c₁ ∈ ([mkGlyph 65, mkGlyph 66] : List Glyph).map (fun g => g.code) →
      c₂ ∈ ([mkGlyph 65, mkGlyph 66] : List Glyph).map (fun g => g.code) →
      c₁ < c₂ → glyphId [mkGlyph 65, mkGlyph 66] c₁ <
        glyphId [mkGlyph 65, mkGlyph 66] c₂) :=
  glyphId_assignment [mkGlyph 65, mkGlyph 66] (by decide)

/-- Counterexample to C5 as stated: with glyphs supplied in the order
`[code 66, code 65]`, both codepoints are present and `65 < 66`, but
`glyphId 65 = 2 > 1 = glyphId 66`. -/
theorem glyphId_not_codepoint_sorted :
    glyphId [mkGlyph 66, mkGlyph 65] 65 = 2 ∧
    glyphId [mkGlyph 66, mkGlyph 65] 66 = 1 ∧
    ¬ glyphId [mkGlyph 66, mkGlyph 65] 65 < glyphId [mkGlyph 66, mkGlyph 65] 66 := by
  decide

/-- Translation of `CmapTable.collect_format0_data`: one entry per code in
`[min_code, max_code]`, holding `glyph_id[code] - start_glyph_id` when the
code has a glyph (`glyph_id[code]` truthy) and 0 otherwise. -/
def collect_format0_data (gs : List Glyph) (minCode maxCode startGlyphId : Nat) :
    List Int :=
  (List.range' minCode (maxCode + 1 - minCode)).map
    (fun code => if glyphId gs code ≠ 0 then (glyphId gs code : Int) - startGlyphId else 0)

/-- Bytes produced by `new Uint8Array(d)` from an array of JavaScript
numbers: each element is converted with `ToUint8`, i.e. reduced modulo 256
(non-negative result). -/
def toUint8Bytes (d : List Int) : List Nat :=
  d.map (fun z => (z.emod 256).toNat)

/-- Translation of `CmapTable.balign4`: zero-pad to a multiple of 4 bytes. -/
def balign4 (buf : List Nat) : List Nat :=
  if buf.length % 4 = 0 then buf
  else buf ++ List.replicate (4 - buf.length % 4) 0

/-- The `glyph_ptr` payload built by the `format0` branch of
`CmapTable.toCBin`: `balign4(uint8ArrayToBuffer(new Uint8Array(d)))`. -/
def format0GlyphBytes (gs : List Glyph) (minCode maxCode startGlyphId : Nat) :
    List Nat :=
  balign4 (toUint8Bytes (collect_format0_data gs minCode maxCode startGlyphId))

/-- Translation of the loop body of `CmapTable.collect_sparse_data`, with
the running `codepoints[0]` passed as `first`.  A code with no glyph makes
the source dereference `undefined` (a TypeError); a code delta or id delta
outside 16 bits throws the corresponding range error. -/
def collect_sparse_aux (gs : List Glyph) (first startGlyphId : Nat) :
    List Nat → Except Str (List Nat × List Nat)
  | [] => Except.ok ([], [])
  | code :: rest =>
    if glyphId gs code = 0 then Except.error (strLit "TypeError")
    else
      let code_delta : Int := (code : Int) - first
      let id_delta : Int := (glyphId gs code : Int) - startGlyphId
      if code_delta < 0 ∨ code_delta > 65535 then
        Except.error (strLit "Codepoint delta out of range")
      else if id_delta < 0 ∨ id_delta > 65535 then
        Except.error (strLit "Glyph ID delta out of range")
      else
        match collect_sparse_aux gs first startGlyphId rest with
        | Except.error e => Except.error e
        | Except.ok (cs, ids) => Except.ok (code_delta.toNat :: cs, id_delta.toNat :: ids)

/-- Translation of `CmapTable.collect_sparse_data`. -/
def collect_sparse_data (gs : List Glyph) (codepoints : List Nat)
    (startGlyphId : Nat) : Except Str (List Nat × List Nat) :=
  collect_sparse_aux gs (codepoints.headD 0) startGlyphId codepoints

/-- Glyph list with codes `0, 1, …, n-1`. -/
def rangeGlyphs (n : Nat) : List Glyph := (List.range n).map mkGlyph

theorem collect_sparse_aux_error (gs : List Glyph) (first startGlyphId : Nat) :
    ∀ (cps : List Nat),
      (∃ c ∈ cps, ((c : Int) - first < 0 ∨ (c : Int) - first > 65535) ∨
        ((glyphId gs c : Int) - startGlyphId < 0 ∨
         (glyphId gs c : Int) - startGlyphId > 65535)) →
      ∃ e, collect_sparse_aux gs first startGlyphId cps = Except.error e := by
  intro cps
  induction cps with
  | nil => intro h; simp at h
  | cons code rest ih =>
    intro h
    by_cases hg : glyphId gs code = 0
    · refine ⟨strLit "TypeError", ?_⟩
      simp only [collect_sparse_aux]
      rw [if_pos hg]
    · by_cases hcd : ((code : Int) - first < 0 ∨ (code : Int) - first > 65535)
      · refine ⟨strLit "Codepoint delta out of range", ?_⟩
        simp only [collect_sparse_aux]
        rw [if_neg hg, if_pos hcd]
      · by_cases hid : ((glyphId gs code : Int) - startGlyphId < 0 ∨
            (glyphId gs code : Int) - startGlyphId > 65535)
        · refine ⟨strLit "Glyph ID delta out of range", ?_⟩
          simp only [collect_sparse_aux]
          rw [if_neg hg, if_neg hcd, if_pos hid]
        · have hrest : ∃ c ∈ rest, ((c : Int) - first < 0 ∨ (c : Int) - first > 65535) ∨
              ((glyphId gs c : Int) - startGlyphId < 0 ∨
               (glyphId gs c : Int) - startGlyphId > 65535) := by
            obtain ⟨c, hc, hviol⟩ := h
            rcases List.mem_cons.mp hc with rfl | hcr
            · exact absurd hviol (by push_neg at hcd hid ⊢; exact ⟨hcd, hid⟩)
            · exact ⟨c, hcr, hviol⟩
          obtain ⟨e, he⟩ := ih hrest
          refine ⟨e, ?_⟩
          simp only [collect_sparse_aux]
          rw [if_neg hg, if_neg hcd, if_neg hid, he]

theorem glyphId_rangeGlyphs (n c : Nat) (hc : c < n) :
    glyphId (rangeGlyphs n) c = c + 1 := by
  have hlen : (rangeGlyphs n).length = n := by simp [rangeGlyphs]
  have hcode : ∀ j (hj : j < (rangeGlyphs n).length), (rangeGlyphs n)[j].code = j := by
    intro j hj
    simp [rangeGlyphs, mkGlyph]
  have hmain := glyphId_getElem (rangeGlyphs n) c (by omega) (fun j hj hne => by
    rw [hcode j hj, hcode c (by omega)]
    exact hne)
  rw [hcode c (by omega)] at hmain
  exact hmain

theorem format0_getD (gs : List Glyph) (minCode maxCode startGlyphId k : Nat)
    (hk : k < maxCode + 1 - minCode) :
    (format0GlyphBytes gs minCode maxCode startGlyphId).getD k 0 =
      if glyphId gs (minCode + k) ≠ 0 then
        (((glyphId gs (minCode + k) : Int) - startGlyphId).emod 256).toNat
      else 0 := by
  have hlen : (toUint8Bytes (collect_format0_data gs minCode maxCode startGlyphId)).length =
      maxCode + 1 - minCode := by
    simp [toUint8Bytes, collect_format0_data]
  have hgetbuf : (format0GlyphBytes gs minCode maxCode startGlyphId).getD k 0 =
      (toUint8Bytes (collect_format0_data gs minCode maxCode startGlyphId)).getD k 0 := by
    unfold format0GlyphBytes balign4
    by_cases hmod :
        (toUint8Bytes (collect_format0_data gs minCode maxCode startGlyphId)).length % 4 = 0
    · rw [if_pos hmod]
    · rw [if_neg hmod]
      exact List.getD_append _ _ _ _ (by omega)
  rw [hgetbuf]
  rw [List.getD_eq_getElem _ _ (by omega)]
  by_cases hg : glyphId gs (minCode + k) = 0
  · simp [toUint8Bytes, collect_format0_data, List.getElem_range', hg]
    decide
  · simp [toUint8Bytes, collect_format0_data, List.getElem_range', hg]

/-- **C10** (implicit) In a full `format0` subtable each per-code entry is a
single byte equal to `(glyphId − startGlyphId) mod 256` (0 for codes with no
glyph); in particular a subtable whose last code has id delta 256 stores the
byte 0 — the delta silently wraps and no error is raised — while the sparse
collector rejects any code delta or glyph-id delta outside 16 bits with an
exception. -/
theorem format0_byte_wraps_sparse_rejects :
    (∀ (gs : List Glyph) (minCode maxCode startGlyphId k : Nat),
      k < maxCode + 1 - minCode →
      (format0GlyphBytes gs minCode maxCode startGlyphId).getD k 0 =
        if glyphId gs (minCode + k) ≠ 0 then
          (((glyphId gs (minCode + k) : Int) - startGlyphId).emod 256).toNat
        else 0) ∧
    (∃ (gs : List Glyph) (minCode maxCode startGlyphId k : Nat),
      k < maxCode + 1 - minCode ∧
      (glyphId gs (minCode + k) : Int) - startGlyphId = 256 ∧
      (format0GlyphBytes gs minCode maxCode startGlyphId).getD k 0 = 0) ∧
    (∀ (gs : List Glyph) (cps : List Nat) (startGlyphId : Nat),
      (∃ c ∈ cps, ((c : Int) - cps.headD 0 < 0 ∨ (c : Int) - cps.headD 0 > 65535) ∨
        ((glyphId gs c : Int) - startGlyphId < 0 ∨
         (glyphId gs c : Int) - startGlyphId > 65535)) →
      ∃ e, collect_sparse_data gs cps startGlyphId = Except.error e) := by
  refine ⟨format0_getD, ?_, ?_⟩
  · refine ⟨rangeGlyphs 257, 0, 256, 1, 256, by norm_num, ?_, ?_⟩
    · rw [Nat.zero_add, glyphId_rangeGlyphs 257 256 (by norm_num)]
      norm_num
    · rw [format0_getD _ _ _ _ _ (by norm_num)]
      rw [Nat.zero_add, glyphId_rangeGlyphs 257 256 (by norm_num)]
      norm_num
  · intro gs cps startGlyphId h
    exact collect_sparse_aux_error gs (cps.headD 0) startGlyphId cps h

/-- Witness for C10 at concrete inputs: a one-code subtable byte, and a
sparse collector input whose second code delta exceeds 65535. -/
theorem format0_byte_wraps_sparse_rejects_witness :
    ((format0GlyphBytes [mkGlyph 5] 5 5 1).getD 0 0 =
      if glyphId [mkGlyph 5] (5 + 0) ≠ 0 then
        (((glyphId [mkGlyph 5] (5 + 0) : Int) - 1).emod 256).toNat
      else 0) ∧
    (∃ e, collect_sparse_data [mkGlyph 0, mkGlyph 70000] [0, 70000] 1 =
      Except.error e) :=
  ⟨format0_byte_wraps_sparse_rejects.1 [mkGlyph 5] 5 5 1 0 (by norm_num),
   format0_byte_wraps_sparse_rejects.2.2 [mkGlyph 0, mkGlyph 70000] [0, 70000] 1
     (by decide)⟩

/-- Model of JavaScript `Math.round` on exact rationals:
`round(x) = floor(x + 0.5)`. -/
def jsRound (q : ℚ) : Int := ⌊q + 1 / 2⌋

/-- Translation of `GlyfTable.pixelsToBpp`: each coverage sample becomes
`p >>> (8 - bpp)`. -/
def pixelsToBpp (bpp : Nat) (pixels : List (List Nat)) : List (List Nat) :=
  pixels.map (fun line => line.map (fun p => p >>> (8 - bpp)))

/-- State of `SimpleBitStream`: byte buffer and bit position
(`byteIndex = pos / 8`, `bitIndex = pos % 8`). -/
structure BitStream where
  buffer : List Nat
  pos : Nat
deriving DecidableEq

/-- Translation of `SimpleBitStream.writeBits` (big-endian branch).  The
source loops while `bits > 0`, consuming `bitsToWrite = min(8 - bitIndex,
bits) ≥ 1` bits per iteration, so the loop runs at most `bits` times; that
bound is the structural fuel.  A store outside the buffer is dropped, as a
`Uint8Array` drops out-of-range stores (`List.set` is the identity there). -/
def writeBitsFuel : Nat → BitStream → Nat → Nat → BitStream
  | 0, st, _, _ => st
  | fuel + 1, st, value, bits =>
    if bits = 0 then st
    else
      let bitIndex := st.pos % 8
      let bitsToWrite := min (8 - bitIndex) bits
      let mask := (1 <<< bitsToWrite) - 1
      let bitValue := (value >>> (bits - bitsToWrite)) &&& mask
      let byteIndex := st.pos / 8
      let newByte := (st.buffer.getD byteIndex 0) |||
        (bitValue <<< (8 - bitIndex - bitsToWrite))
      writeBitsFuel fuel ⟨st.buffer.set byteIndex newByte, st.pos + bitsToWrite⟩
        value (bits - bitsToWrite)

/-- `writeBits(value, bits)` on a stream state. -/
def writeBits (st : BitStream) (value bits : Nat) : BitStream :=
  writeBitsFuel bits st value bits

/-- Translation of `GlyfTable.storePixelsRaw`; `storePixels` always ends up
here because `storePixelsCompressed` in this code base falls back to the raw
writer. -/
def storePixelsRaw (bpp : Nat) (st : BitStream) (pixels : List (List Nat)) :
    BitStream :=
  pixels.foldl (fun st line => line.foldl (fun st p => writeBits st p bpp) st) st

/-- Translation of `SimpleBitStream.getUsedBytes`. -/
def getUsedBytes (st : BitStream) : Nat :=
  if st.pos % 8 > 0 then st.pos / 8 + 1 else st.pos / 8

/-- Translation of `GlyfTable.lv_bitmap`: write the quantized pixels into a
zeroed scratch buffer of `100 + w·h·4` bytes and keep the used span. -/
def lv_bitmap (bpp : Nat) (g : Glyph) : List Nat :=
  let bufSize := 100 + g.bboxW * g.bboxH * 4
  let st := storePixelsRaw bpp ⟨List.replicate bufSize 0, 0⟩ (pixelsToBpp bpp g.pixels)
  st.buffer.take (getUsedBytes st)

/-- One element of the `lv_data` array built by `GlyfTable.lv_compile`. -/
structure LvEntry where
  id : Nat
  bin : List Nat
  offset : Nat
  glyph : Glyph

/-- The assignments `lv_data[glyph_id[g.code]] = {bin, offset, glyph}`, in
glyph order, with the bitmap offset accumulator. -/
def lvCompileAux (bpp : Nat) (gs : List Glyph) : List Glyph → Nat → List LvEntry
  | [], _ => []
  | g :: rest, offset =>
    let bin := lv_bitmap bpp g
    ⟨glyphId gs g.code, bin, offset, g⟩ :: lvCompileAux bpp gs rest (offset + bin.length)

/-- Translation of `GlyfTable.lv_compile`. -/
def lvCompile (bpp : Nat) (gs : List Glyph) : List LvEntry := lvCompileAux bpp gs gs 0

/-- JavaScript array length of `lv_data`: one past the largest assigned
index (0 when nothing was assigned). -/
def lvDataLength (entries : List LvEntry) : Nat :=
  entries.foldl (fun m e => max m (e.id + 1)) 0

/-- `lv_data[k]`: the last assignment to index `k`, if any. -/
def lvDataAt (entries : List LvEntry) (k : Nat) : Option LvEntry :=
  (entries.filter (fun e => e.id = k)).getLast?

/-- The elements `lv_data.forEach` visits: present indices in order, holes
skipped. -/
def lvVisited (entries : List LvEntry) : List LvEntry :=
  (List.range (lvDataLength entries)).filterMap (lvDataAt entries)

/-- One 16-byte glyph descriptor record as written by `GlyfTable.toCBin`:
`{bitmapOffset:u32, round(advanceWidth·16):u32, width:u16, height:u16,
bboxX:i16, bboxY:i16}`, all little-endian. -/
def glyphDscRecord (e : LvEntry) : List Nat :=
  packUint32 e.offset ++ u32leInt (jsRound (e.glyph.advanceWidth * 16)) ++
    packUint16 e.glyph.bboxW ++ packUint16 e.glyph.bboxH ++
    i16le e.glyph.bboxX ++ i16le e.glyph.bboxY

/-- Translation of the `glyph_dsc_buf` construction in `GlyfTable.toCBin`:
a zeroed buffer of `lv_data.length * 16 + 16` bytes in which the `i`-th
visited entry's 16-byte record is written at byte `i·16`, `i` starting at 1
and increasing by 1 per visited entry; the records therefore occupy the
contiguous bytes `16 … 16·(visited+1)` and the rest of the buffer remains
zero. -/
def glyphDscBuf (bpp : Nat) (gs : List Glyph) : List Nat :=
  let entries := lvCompile bpp gs
  let visited := lvVisited entries
  List.replicate 16 0 ++ (visited.map glyphDscRecord).flatten ++
    List.replicate (lvDataLength entries * 16 + 16 - (visited.length + 1) * 16) 0

theorem glyphDscRecord_length (e : LvEntry) : (glyphDscRecord e).length = 16 := by
  simp [glyphDscRecord, packUint32, packUint16, u32leInt, i16le]

theorem lvCompileAux_length (bpp : Nat) (gs : List Glyph) :
    ∀ (l : List Glyph) (off : Nat), (lvCompileAux bpp gs l off).length = l.length := by
  intro l
  induction l with
  | nil => intro off; rfl
  | cons g t ih =>
    intro off
    simp only [lvCompileAux, List.length_cons, ih]

theorem lvCompileAux_getElem (bpp : Nat) (gs : List Glyph) :
    ∀ (l : List Glyph) (off i : Nat) (hi : i < l.length)
      (hib : i < (lvCompileAux bpp gs l off).length),
      (lvCompileAux bpp gs l off)[i] =
        ⟨glyphId gs (l[i].code), lv_bitmap bpp l[i],
          off + ((l.take i).map (fun g => (lv_bitmap bpp g).length)).sum, l[i]⟩ := by
  intro l
  induction l with
  | nil => intro off i hi hib; simp at hi
  | cons g t ih =>
    intro off i hi hib
    cases i with
    | zero => simp [lvCompileAux]
    | succ i =>
      simp only [lvCompileAux, List.getElem_cons_succ, List.take_succ_cons,
        List.map_cons, List.sum_cons]
      rw [ih (off + (lv_bitmap bpp g).length) i (by simpa using hi)
        (by rw [lvCompileAux_length]; simpa using hi)]
      congr 1
      ring

theorem foldl_max_ids :
    ∀ (es : List LvEntry) (base a : Nat),
      (∀ i (hi : i < es.length), es[i].id = base + i) → es ≠ [] →
      es.foldl (fun m e => max m (e.id + 1)) a = max a (base + es.length) := by
  intro es
  induction es with
  | nil => intro base a _ hne; exact absurd rfl hne
  | cons e t ih =>
    intro base a hids _
    have he : e.id = base := by
      have := hids 0 (by simp)
      simpa using this
    simp only [List.foldl_cons, he]
    cases t with
    | nil => simp
    | cons e2 t2 =>
      rw [ih (base + 1) (max a (base + 1)) (fun i hi => by
        have := hids (i + 1) (by simpa using hi)
        simpa [Nat.add_assoc, Nat.add_comm 1 i] using this) (by simp)]
      simp only [List.length_cons]
      omega

theorem filter_id_dense :
    ∀ (es : List LvEntry) (base k : Nat),
      (∀ i (hi : i < es.length), es[i].id = base + i) →
      es.filter (fun e => e.id = k) =
        if h : base ≤ k ∧ k < base + es.length then [es.get ⟨k - base, by omega⟩]
        else [] := by
  intro es
  induction es with
  | nil =>
    intro base k _
    rw [dif_neg (by simp)]
    rfl
  | cons e t ih =>
    intro base k hids
    have he : e.id = base := by
      have := hids 0 (by simp)
      simpa using this
    have htids : ∀ i (hi : i < t.length), t[i].id = (base + 1) + i := by
      intro i hi
      have := hids (i + 1) (by simpa using hi)
      simpa [Nat.add_assoc, Nat.add_comm 1 i] using this
    rw [List.filter_cons]
    by_cases hk : k = base
    · rw [hk]
      rw [if_pos (by simp [he])]
      rw [ih (base + 1) base htids]
      rw [dif_neg (by rintro ⟨h1, h2⟩; omega)]
      rw [dif_pos (by refine ⟨Nat.le_refl _, ?_⟩; simp only [List.length_cons]; omega)]
      simp
    · rw [if_neg (by simp [he]; omega)]
      rw [ih (base + 1) k htids]
      by_cases hin : base + 1 ≤ k ∧ k < base + 1 + t.length
      · rw [dif_pos hin]
        rw [dif_pos (by simp only [List.length_cons]; omega)]
        have h1 : k - base = (k - (base + 1)) + 1 := by omega
        simp only [List.get_eq_getElem, h1, List.getElem_cons_succ]
      · rw [dif_neg hin]
        rw [dif_neg (by simp only [List.length_cons]; omega)]

theorem filterMap_getElemQ {α : Type} :
    ∀ (l : List α), (List.range l.length).filterMap (fun k => l[k]?) = l := by
  intro l
  induction l with
  | nil => rfl
  | cons e t ih =>
    have hstep : (List.range (e :: t).length).filterMap (fun k => (e :: t)[k]?) =
        e :: (List.range t.length).filterMap (fun k => t[k]?) := by
      rw [List.length_cons, List.range_succ_eq_map, List.filterMap_cons]
      simp only [List.getElem?_cons_zero, List.filterMap_map, Function.comp_def,
        Nat.succ_eq_add_one, List.getElem?_cons_succ]
    rw [hstep, ih]

theorem lvCompile_length (bpp : Nat) (gs : List Glyph) :
    (lvCompile bpp gs).length = gs.length := lvCompileAux_length bpp gs gs 0

theorem lvCompile_getElem (bpp : Nat) (gs : List Glyph) (i : Nat) (hi : i < gs.length)
    (hib : i < (lvCompile bpp gs).length) :
    (lvCompile bpp gs)[i] =
      ⟨glyphId gs (gs[i].code), lv_bitmap bpp gs[i],
        ((gs.take i).map (fun g => (lv_bitmap bpp g).length)).sum, gs[i]⟩ := by
  have h := lvCompileAux_getElem bpp gs gs 0 i hi
    (by rw [lvCompileAux_length]; exact hi)
  unfold lvCompile
  rw [h]
  simp

theorem lvCompile_ids (bpp : Nat) (gs : List Glyph)
    (hnd : gs.Pairwise (fun a b => a.code ≠ b.code)) (i : Nat)
    (hi : i < (lvCompile bpp gs).length) :
    (lvCompile bpp gs)[i].id = 1 + i := by
  have hi' : i < gs.length := by rw [← lvCompile_length bpp gs]; exact hi
  have hpg := List.pairwise_iff_getElem.mp hnd
  have huniq : ∀ j (hj : j < gs.length), j ≠ i → gs[j].code ≠ gs[i].code := by
    intro j hj hne
    rcases Nat.lt_or_ge j i with h | h
    · exact hpg j i hj hi' h
    · have hlt : i < j := by omega
      exact fun hc => (hpg i j hi' hj hlt) hc.symm
  rw [lvCompile_getElem bpp gs i hi' hi]
  simp only
  rw [glyphId_getElem gs i hi' huniq]
  omega

theorem flatten16_slice :
    ∀ (rs : List (List Nat)), (∀ r ∈ rs, r.length = 16) →
      ∀ (i : Nat) (hi : i < rs.length),
        ((rs.flatten).drop (16 * i)).take 16 = rs[i] := by
  intro rs
  induction rs with
  | nil => intro _ i hi; simp at hi
  | cons r rest ih =>
    intro hlen i hi
    cases i with
    | zero =>
      simp only [Nat.mul_zero, List.drop_zero, List.flatten_cons,
        List.getElem_cons_zero]
      rw [← hlen r (by simp)]
      exact List.take_left _ _
    | succ i =>
      have hd := List.drop_left r rest.flatten
      rw [hlen r (by simp)] at hd
      have h16 : 16 * (i + 1) = 16 + 16 * i := by ring
      rw [List.flatten_cons, h16, ← List.drop_drop, hd,
        List.getElem_cons_succ]
      exact ih (fun x hx => hlen x (by simp [hx])) i (by simpa using hi)

theorem glyphDscBuf_dense (bpp : Nat) (gs : List Glyph)
    (hnd : gs.Pairwise (fun a b => a.code ≠ b.code)) (hne : gs ≠ []) :
    glyphDscBuf bpp gs = List.replicate 16 0 ++
      ((lvCompile bpp gs).map glyphDscRecord).flatten ++ List.replicate 16 0 := by
  have hids := lvCompile_ids bpp gs hnd
  have hclen : (lvCompile bpp gs).length = gs.length := lvCompile_length bpp gs
  have hcne : lvCompile bpp gs ≠ [] := by
    intro h
    apply hne
    have := congrArg List.length h
    rw [hclen] at this
    exact List.length_eq_zero.mp this
  have hdlen : lvDataLength (lvCompile bpp gs) = 1 + gs.length := by
    unfold lvDataLength
    rw [foldl_max_ids (lvCompile bpp gs) 1 0 hids hcne, hclen]
    omega
  have hAt : ∀ k, lvDataAt (lvCompile bpp gs) k =
      if k = 0 then none else (lvCompile bpp gs)[k - 1]? := by
    intro k
    unfold lvDataAt
    rw [filter_id_dense (lvCompile bpp gs) 1 k hids]
    by_cases hk0 : k = 0
    · rw [dif_neg (by omega), if_pos hk0]
      rfl
    · rw [if_neg hk0]
      by_cases hin : 1 ≤ k ∧ k < 1 + (lvCompile bpp gs).length
      · rw [dif_pos hin]
        rw [List.getElem?_eq_getElem (by omega)]
        rfl
      · rw [dif_neg hin]
        rw [List.getElem?_eq_none (by omega)]
        rfl
  have hvis : lvVisited (lvCompile bpp gs) = lvCompile bpp gs := by
    unfold lvVisited
    rw [hdlen]
    have h1N : 1 + gs.length = gs.length + 1 := by omega
    rw [h1N, List.range_succ_eq_map, List.filterMap_cons]
    rw [hAt 0, if_pos rfl]
    rw [List.filterMap_map]
    have hfun : (lvDataAt (lvCompile bpp gs)) ∘ Nat.succ =
        fun k => (lvCompile bpp gs)[k]? := by
      funext k
      simp only [Function.comp_def, hAt (Nat.succ k)]
      rw [if_neg (by omega)]
      simp
    rw [hfun, ← hclen, filterMap_getElemQ]
  simp only [glyphDscBuf]
  rw [hvis, hdlen, hclen]
  congr 1
  congr 1
  omega

theorem flatten_rec_length :
    ∀ (es : List LvEntry), ((es.map glyphDscRecord).flatten).length = 16 * es.length := by
  intro es
  induction es with
  | nil => rfl
  | cons e t ih =>
    simp only [List.map_cons, List.flatten_cons, List.length_append,
      glyphDscRecord_length, ih, List.length_cons]
    ring

theorem glyphDscBuf_length (bpp : Nat) (gs : List Glyph)
    (hnd : gs.Pairwise (fun a b => a.code ≠ b.code)) (hne : gs ≠ []) :
    (glyphDscBuf bpp gs).length = 16 * (gs.length + 2) := by
  rw [glyphDscBuf_dense bpp gs hnd hne]
  simp only [List.length_append, List.length_replicate, flatten_rec_length,
    lvCompile_length]
  ring

/-- **C4** (amended) For every font with `N ≥ 1` glyphs of pairwise distinct
codepoints (glyph ids 1..N), the glyph descriptor buffer holds one 16-byte
record per glyph id 0..N followed by 16 more zero bytes — the source
allocates `lv_data.length * 16 + 16` bytes — so its total length is 16·(N+2)
rather than the claimed 16·(N+1); record 0 is all zeros, and record i
(1 ≤ i ≤ N) holds {bitmapOffset:u32, advanceWidth_q4:u32 =
round(advanceWidth·16), width:u16, height:u16, bboxX:i16, bboxY:i16}
little-endian for the glyph with id i. -/
theorem glyph_dsc_records (bpp : Nat) (gs : List Glyph)
    (hnd : gs.Pairwise (fun a b => a.code ≠ b.code)) (hne : gs ≠ []) :
    (glyphDscBuf bpp gs).length = 16 * (gs.length + 2) ∧
    (glyphDscBuf bpp gs).take 16 = List.replicate 16 0 ∧
    (glyphDscBuf bpp gs).drop (16 * (gs.length + 1)) = List.replicate 16 0 ∧
    (∀ i (hi : i < gs.length),
      ((glyphDscBuf bpp gs).drop (16 * (i + 1))).take 16 =
        packUint32 (((gs.take i).map (fun g => (lv_bitmap bpp g).length)).sum) ++
        u32leInt (jsRound (gs[i].advanceWidth * 16)) ++
        packUint16 gs[i].bboxW ++ packUint16 gs[i].bboxH ++
        i16le gs[i].bboxX ++ i16le gs[i].bboxY) := by
  have hdense := glyphDscBuf_dense bpp gs hnd hne
  have hFlen := flatten_rec_length (lvCompile bpp gs)
  rw [lvCompile_length] at hFlen
  have hdz := List.drop_left (List.replicate 16 (0 : Nat))
    (((lvCompile bpp gs).map glyphDscRecord).flatten ++ List.replicate 16 0)
  rw [List.length_replicate] at hdz
  refine ⟨glyphDscBuf_length bpp gs hnd hne, ?_, ?_, ?_⟩
  · rw [hdense, List.append_assoc]
    have ht := List.take_left (List.replicate 16 (0 : Nat))
      (((lvCompile bpp gs).map glyphDscRecord).flatten ++ List.replicate 16 0)
    rw [List.length_replicate] at ht
    exact ht
  · rw [hdense, List.append_assoc]
    have h16 : 16 * (gs.length + 1) = 16 + 16 * gs.length := by ring
    rw [h16, ← List.drop_drop, hdz]
    have hd2 := List.drop_left (((lvCompile bpp gs).map glyphDscRecord).flatten)
      (List.replicate 16 (0 : Nat))
    rw [hFlen] at hd2
    exact hd2
  · intro i hi
    rw [hdense, List.append_assoc]
    have h16 : 16 * (i + 1) = 16 + 16 * i := by ring
    rw [h16, ← List.drop_drop, hdz]
    rw [List.drop_append_of_le_length (by rw [hFlen]; omega)]
    rw [List.take_append_of_le_length (by
      rw [List.length_drop, hFlen]
      omega)]
    have hmlen : i < ((lvCompile bpp gs).map glyphDscRecord).length := by
      rw [List.length_map, lvCompile_length]
      exact hi
    rw [flatten16_slice ((lvCompile bpp gs).map glyphDscRecord)
      (fun r hr => by
        obtain ⟨e, _, he⟩ := List.mem_map.mp hr
        rw [← he]
        exact glyphDscRecord_length e) i hmlen]
    rw [List.getElem_map]
    rw [lvCompile_getElem bpp gs i hi (by rw [lvCompile_length]; exact hi)]
    rfl

/-- Counterexample to C4 as stated: a one-glyph font (N = 1) gets a 48-byte
descriptor buffer — `lv_data.length * 16 + 16` — not the claimed
16·(N+1) = 32 bytes. -/
theorem glyph_dsc_extra_record :
    (glyphDscBuf 4 [⟨65, 7, 1, -2, 1, 1, [[255]]⟩]).length = 48 ∧
    (glyphDscBuf 4 [⟨65, 7, 1, -2, 1, 1, [[255]]⟩]).length ≠ 16 * (1 + 1) := by
  have h := glyphDscBuf_length 4 [⟨65, 7, 1, -2, 1, 1, [[255]]⟩]
    (by simp) (by simp)
  constructor
  · rw [h]
    rfl
  · rw [h]
    simp

/-- Witness for C4 (amended) at a concrete one-glyph font. -/
theorem glyph_dsc_records_witness :
    (glyphDscBuf 4 [⟨65, 7, 1, -2, 1, 1, [[255]]⟩]).length =
      16 * (([⟨65, 7, 1, -2, 1, 1, [[255]]⟩] : List Glyph).length + 2) ∧
    (glyphDscBuf 4 [⟨65, 7, 1, -2, 1, 1, [[255]]⟩]).take 16 = List.replicate 16 0 ∧
    (glyphDscBuf 4 [⟨65, 7, 1, -2, 1, 1, [[255]]⟩]).drop
        (16 * (([⟨65, 7, 1, -2, 1, 1, [[255]]⟩] : List Glyph).length + 1)) =
      List.replicate 16 0 ∧
    (∀ i (hi : i < ([⟨65, 7, 1, -2, 1, 1, [[255]]⟩] : List Glyph).length),
      ((glyphDscBuf 4 [⟨65, 7, 1, -2, 1, 1, [[255]]⟩]).drop (16 * (i + 1))).take 16 =
        packUint32 (((([⟨65, 7, 1, -2, 1, 1, [[255]]⟩] : List Glyph).take i).map
          (fun g => (lv_bitmap 4 g).length)).sum) ++
        u32leInt (jsRound ((([⟨65, 7, 1, -2, 1, 1, [[255]]⟩] :
          List Glyph)[i]).advanceWidth * 16)) ++
        packUint16 (([⟨65, 7, 1, -2, 1, 1, [[255]]⟩] : List Glyph)[i]).bboxW ++
        packUint16 (([⟨65, 7, 1, -2, 1, 1, [[255]]⟩] : List Glyph)[i]).bboxH ++
        i16le (([⟨65, 7, 1, -2, 1, 1, [[255]]⟩] : List Glyph)[i]).bboxX ++
        i16le (([⟨65, 7, 1, -2, 1, 1, [[255]]⟩] : List Glyph)[i]).bboxY) :=
  glyph_dsc_records 4 [⟨65, 7, 1, -2, 1, 1, [[255]]⟩] (by simp) (by simp)

/-! ## WakenetModelPacker (src/unnamed/part_003) -/

/-- Translation of `WakenetModelPacker.packString`: `charCodeAt(i) & 0xFF`
for the first `min(length, maxLen)` code units, zero padding, no
terminator. -/
def wakePackString (s : Str) (maxLen : Nat) : List Nat :=
  (s.take maxLen).map (fun u => u % 256) ++
    List.replicate (maxLen - min s.length maxLen) 0

/-- Comparator of the two sorts in `packModels`
(`(a, b) => a[0].localeCompare(b[0])`). -/
def wakeR {α : Type} (a b : Str × α) : Prop := icuCompare a.1 b.1 ≠ .gt

instance {α : Type} : DecidableRel (@wakeR α) := fun a b => by
  unfold wakeR
  infer_instance

/-- The `modelDataList` of `packModels`: models sorted by name and each
model's files sorted by name (stable JavaScript sorts). -/
def sortedModels (models : List (Str × List (Str × List Nat))) :
    List (Str × List (Str × List Nat)) :=
  (models.insertionSort wakeR).map (fun m => (m.1, m.2.insertionSort wakeR))

/-- Header length: `4 + Σ (32 + 4 + fileCount·(32 + 4 + 4))`. -/
def wakeHeaderLen (models : List (Str × List (Str × List Nat))) : Nat :=
  4 + (models.map (fun m => 36 + m.2.length * 40)).sum

/-- Per-file header records of one model with the running absolute
`dataOffset`; returns the bytes and the advanced offset. -/
def wakeFileRecs : List (Str × List Nat) → Nat → List Nat × Nat
  | [], off => ([], off)
  | (fn, fd) :: rest, off =>
    let tail := wakeFileRecs rest (off + fd.length)
    (wakePackString fn 32 ++ packUint32 off ++ packUint32 fd.length ++ tail.1, tail.2)

/-- Per-model header records. -/
def wakeModelRecs : List (Str × List (Str × List Nat)) → Nat → List Nat
  | [], _ => []
  | m :: rest, off =>
    let fb := wakeFileRecs m.2 off
    wakePackString m.1 32 ++ packUint32 m.2.length ++ fb.1 ++ wakeModelRecs rest fb.2

/-- Total number of data bytes of a model list. -/
def wakeDataLen (models : List (Str × List (Str × List Nat))) : Nat :=
  (models.map (fun m => (m.2.map (fun f => f.2.length)).sum)).sum

/-- Translation of `WakenetModelPacker.packModels`: model count, sorted
per-model headers with absolute file offsets starting at the header length,
then all file bytes in the same order; the `throw` on an empty model map is
modelled by `none`. -/
def packModels (models : List (Str × List (Str × List Nat))) : Option (List Nat) :=
  if models.length = 0 then none
  else
    let sorted := sortedModels models
    some (packUint32 models.length ++ wakeModelRecs sorted (wakeHeaderLen sorted) ++
      (sorted.map (fun m => (m.2.map (fun f => f.2)).flatten)).flatten)

/-- Modelled from the spec: the repository ships no reader for the packed
wake-model blob, so the documented layout (spec section 4.4) is read back
here — a 32-byte zero-padded name, and per file the absolute `startOffset`
and `length` used to slice the file bytes out of the whole blob. -/
def readName32 (out : List Nat) (off : Nat) : Str :=
  ((out.drop off).take 32).takeWhile (fun b => b ≠ 0)

/-- Modelled from the spec: reader for one model's file table. -/
def unpackWakeFiles (out : List Nat) : Nat → Nat → List (Str × List Nat)
  | 0, _ => []
  | count + 1, off =>
    (readName32 out off,
      (out.drop (readU32 out (off + 32))).take (readU32 out (off + 36))) ::
      unpackWakeFiles out count (off + 40)

/-- Modelled from the spec: reader for the model table. -/
def unpackWakeModels (out : List Nat) :
    Nat → Nat → List (Str × List (Str × List Nat))
  | 0, _ => []
  | count + 1, off =>
    (readName32 out off, unpackWakeFiles out (readU32 out (off + 32)) (off + 36)) ::
      unpackWakeModels out count (off + 36 + (readU32 out (off + 32)) * 40)

/-- Modelled from the spec: reader for the whole blob. -/
def unpackWake (out : List Nat) : List (Str × List (Str × List Nat)) :=
  unpackWakeModels out (readU32 out 0) 4

theorem wakePackString_length (s : Str) (maxLen : Nat) :
    (wakePackString s maxLen).length = maxLen := by
  unfold wakePackString
  simp only [List.length_append, List.length_map, List.length_take,
    List.length_replicate]
  omega

theorem wakeFileRecs_bytes_length :
    ∀ (fs : List (Str × List Nat)) (off : Nat),
      (wakeFileRecs fs off).1.length = 40 * fs.length := by
  intro fs
  induction fs with
  | nil => intro off; rfl
  | cons f rest ih =>
    intro off
    obtain ⟨fn, fd⟩ := f
    simp only [wakeFileRecs, List.length_append, wakePackString_length,
      packUint32_length, ih, List.length_cons]
    ring

theorem wakeFileRecs_off :
    ∀ (fs : List (Str × List Nat)) (off : Nat),
      (wakeFileRecs fs off).2 = off + (fs.map (fun f => f.2.length)).sum := by
  intro fs
  induction fs with
  | nil => intro off; simp [wakeFileRecs]
  | cons f rest ih =>
    intro off
    obtain ⟨fn, fd⟩ := f
    simp only [wakeFileRecs, ih, List.map_cons, List.sum_cons]
    ring

theorem wakeModelRecs_length :
    ∀ (ms : List (Str × List (Str × List Nat))) (off : Nat),
      (wakeModelRecs ms off).length = (ms.map (fun m => 36 + m.2.length * 40)).sum := by
  intro ms
  induction ms with
  | nil => intro off; rfl
  | cons m rest ih =>
    intro off
    simp only [wakeModelRecs, List.length_append, wakePackString_length,
      packUint32_length, wakeFileRecs_bytes_length, ih, List.map_cons, List.sum_cons]
    ring

theorem slice_of_take_eq {X R : List Nat} {L : Nat} (h : X.take L = R)
    (a b : Nat) (hab : a + b ≤ L) :
    (X.drop a).take b = (R.drop a).take b := by
  have h1 : (X.drop a).take b = ((X.drop a).take (L - a)).take b := by
    rw [List.take_take]
    congr 1
    omega
  rw [h1, ← List.drop_take, h]

theorem wakePackString_ascii (s : Str) (hlen : s.length ≤ 32)
    (hval : ∀ u ∈ s, 0 < u ∧ u < 256) :
    wakePackString s 32 = s ++ List.replicate (32 - s.length) 0 := by
  unfold wakePackString
  rw [List.take_of_length_le hlen, Nat.min_eq_left hlen]
  congr 1
  rw [List.map_congr_left (fun u hu => Nat.mod_eq_of_lt (hval u hu).2)]
  exact List.map_id _

theorem readName32_recovers (out : List Nat) (off : Nat) (s : Str)
    (hlen : s.length ≤ 32) (hval : ∀ u ∈ s, 0 < u ∧ u < 256)
    (hslice : (out.drop off).take 32 = wakePackString s 32) :
    readName32 out off = s := by
  unfold readName32
  rw [hslice, wakePackString_ascii s hlen hval]
  exact takeWhile_ne_zero_padded s _ (fun u hu => by
    have := hval u hu
    omega)

theorem rec4_take32 (n : Str) (a b : Nat) (t : List Nat) :
    (wakePackString n 32 ++ packUint32 a ++ packUint32 b ++ t).take 32 =
      wakePackString n 32 := by
  rw [List.append_assoc, List.append_assoc]
  have ht := List.take_left (wakePackString n 32) (packUint32 a ++ (packUint32 b ++ t))
  rw [wakePackString_length] at ht
  exact ht

theorem rec4_drop32_take4 (n : Str) (a b : Nat) (t : List Nat) :
    ((wakePackString n 32 ++ packUint32 a ++ packUint32 b ++ t).drop 32).take 4 =
      packUint32 a := by
  rw [List.append_assoc, List.append_assoc]
  have hd := List.drop_left (wakePackString n 32) (packUint32 a ++ (packUint32 b ++ t))
  rw [wakePackString_length] at hd
  rw [hd]
  have ht := List.take_left (packUint32 a) (packUint32 b ++ t)
  rw [packUint32_length] at ht
  exact ht

theorem rec4_drop36_take4 (n : Str) (a b : Nat) (t : List Nat) :
    ((wakePackString n 32 ++ packUint32 a ++ packUint32 b ++ t).drop 36).take 4 =
      packUint32 b := by
  rw [List.append_assoc, List.append_assoc]
  have hd := List.drop_left (wakePackString n 32) (packUint32 a ++ (packUint32 b ++ t))
  rw [wakePackString_length] at hd
  have h36 : (36 : Nat) = 32 + 4 := rfl
  rw [h36, ← List.drop_drop, hd]
  have hd2 := List.drop_left (packUint32 a) (packUint32 b ++ t)
  rw [packUint32_length] at hd2
  rw [hd2]
  have ht := List.take_left (packUint32 b) t
  rw [packUint32_length] at ht
  exact ht

theorem rec4_drop40 (n : Str) (a b : Nat) (t : List Nat) :
    (wakePackString n 32 ++ packUint32 a ++ packUint32 b ++ t).drop 40 = t := by
  rw [List.append_assoc, List.append_assoc]
  have hd := List.drop_left (wakePackString n 32) (packUint32 a ++ (packUint32 b ++ t))
  rw [wakePackString_length] at hd
  have h40 : (40 : Nat) = 32 + 8 := rfl
  rw [h40, ← List.drop_drop, hd]
  have hd2 := List.drop_left (packUint32 a) (packUint32 b ++ t)
  rw [packUint32_length] at hd2
  have h8 : (8 : Nat) = 4 + 4 := rfl
  rw [h8, ← List.drop_drop, hd2]
  have hd3 := List.drop_left (packUint32 b) t
  rw [packUint32_length] at hd3
  exact hd3

theorem rec2_take32 (n : Str) (a : Nat) (t : List Nat) :
    (wakePackString n 32 ++ packUint32 a ++ t).take 32 = wakePackString n 32 := by
  rw [List.append_assoc]
  have ht := List.take_left (wakePackString n 32) (packUint32 a ++ t)
  rw [wakePackString_length] at ht
  exact ht

theorem rec2_drop32_take4 (n : Str) (a : Nat) (t : List Nat) :
    ((wakePackString n 32 ++ packUint32 a ++ t).drop 32).take 4 = packUint32 a := by
  rw [List.append_assoc]
  have hd := List.drop_left (wakePackString n 32) (packUint32 a ++ t)
  rw [wakePackString_length] at hd
  rw [hd]
  have ht := List.take_left (packUint32 a) t
  rw [packUint32_length] at ht
  exact ht

theorem rec2_drop36 (n : Str) (a : Nat) (t : List Nat) :
    (wakePackString n 32 ++ packUint32 a ++ t).drop 36 = t := by
  rw [List.append_assoc]
  have hd := List.drop_left (wakePackString n 32) (packUint32 a ++ t)
  rw [wakePackString_length] at hd
  have h36 : (36 : Nat) = 32 + 4 := rfl
  rw [h36, ← List.drop_drop, hd]
  have hd2 := List.drop_left (packUint32 a) t
  rw [packUint32_length] at hd2
  exact hd2

theorem dataFlatten_length (fs : List (Str × List Nat)) :
    ((fs.map (fun f => f.2)).flatten).length = (fs.map (fun f => f.2.length)).sum := by
  rw [List.length_flatten, List.map_map]
  rfl

theorem unpackWakeFiles_correct (out : List Nat) :
    ∀ (fs : List (Str × List Nat)) (hoff doff : Nat),
      (∀ f ∈ fs, f.1.length ≤ 32 ∧ ∀ u ∈ f.1, 0 < u ∧ u < 256) →
      doff + (fs.map (fun f => f.2.length)).sum < 4294967296 →
      (out.drop hoff).take (40 * fs.length) = (wakeFileRecs fs doff).1 →
      (out.drop doff).take ((fs.map (fun f => f.2.length)).sum) =
        (fs.map (fun f => f.2)).flatten →
      unpackWakeFiles out fs.length hoff = fs := by
  intro fs
  induction fs with
  | nil => intro hoff doff _ _ _ _; rfl
  | cons f rest ih =>
    intro hoff doff hnames hbound hhdr hdata
    obtain ⟨fn, fd⟩ := f
    simp only [wakeFileRecs] at hhdr
    simp only [List.map_cons, List.sum_cons, List.flatten_cons] at hdata hbound
    have hname := hnames (fn, fd) (by simp)
    have h32 : (out.drop hoff).take 32 = wakePackString fn 32 := by
      have := slice_of_take_eq hhdr 0 32 (by simp only [List.length_cons]; omega)
      rw [List.drop_zero, List.drop_zero] at this
      rw [this, rec4_take32]
    have hoffslice : (out.drop (hoff + 32)).take 4 = packUint32 doff := by
      have h := slice_of_take_eq hhdr 32 4 (by simp only [List.length_cons]; omega)
      rw [List.drop_drop] at h
      rw [h, rec4_drop32_take4]
    have hlenslice : (out.drop (hoff + 36)).take 4 = packUint32 fd.length := by
      have h := slice_of_take_eq hhdr 36 4 (by simp only [List.length_cons]; omega)
      rw [List.drop_drop] at h
      rw [h, rec4_drop36_take4]
    have hro : readU32 out (hoff + 32) = doff :=
      readU32_slice out (hoff + 32) doff (by omega) hoffslice
    have hrl : readU32 out (hoff + 36) = fd.length :=
      readU32_slice out (hoff + 36) fd.length (by omega) hlenslice
    have hfdata : (out.drop doff).take fd.length = fd := by
      have h := congrArg (List.take fd.length) hdata
      rw [List.take_take, Nat.min_eq_left (by omega)] at h
      rw [h]
      exact List.take_left _ _
    have hhdr2 : (out.drop (hoff + 40)).take (40 * rest.length) =
        (wakeFileRecs rest (doff + fd.length)).1 := by
      have h := slice_of_take_eq hhdr 40 (40 * rest.length)
        (by simp only [List.length_cons]; ring_nf; omega)
      rw [List.drop_drop] at h
      rw [h, rec4_drop40]
      rw [List.take_of_length_le (by rw [wakeFileRecs_bytes_length])]
    have hdata2 : (out.drop (doff + fd.length)).take
        ((rest.map (fun f => f.2.length)).sum) = (rest.map (fun f => f.2)).flatten := by
      have h := slice_of_take_eq hdata fd.length ((rest.map (fun f => f.2.length)).sum)
        (by omega)
      rw [List.drop_drop] at h
      rw [h]
      have hd := List.drop_left fd ((rest.map (fun f => f.2)).flatten)
      rw [hd]
      exact List.take_of_length_le (by rw [dataFlatten_length])
    simp only [List.length_cons, unpackWakeFiles]
    rw [hro, hrl]
    rw [readName32_recovers out hoff fn hname.1 hname.2 h32]
    rw [hfdata]
    rw [ih (hoff + 40) (doff + fd.length)
      (fun x hx => hnames x (by simp [hx])) (by omega) hhdr2 hdata2]

theorem wakeDataFlatten_length (ms : List (Str × List (Str × List Nat))) :
    ((ms.map (fun m => (m.2.map (fun f => f.2)).flatten)).flatten).length =
      wakeDataLen ms := by
  rw [List.length_flatten, List.map_map]
  unfold wakeDataLen
  congr 1
  exact List.map_congr_left (fun m _ => dataFlatten_length m.2)

theorem unpackWakeModels_correct (out : List Nat) :
    ∀ (ms : List (Str × List (Str × List Nat))) (hoff doff : Nat),
      (∀ m ∈ ms, (m.1.length ≤ 32 ∧ ∀ u ∈ m.1, 0 < u ∧ u < 256) ∧
        m.2.length < 4294967296 ∧
        ∀ f ∈ m.2, f.1.length ≤ 32 ∧ ∀ u ∈ f.1, 0 < u ∧ u < 256) →
      doff + wakeDataLen ms < 4294967296 →
      (out.drop hoff).take ((ms.map (fun m => 36 + m.2.length * 40)).sum) =
        wakeModelRecs ms doff →
      (out.drop doff).take (wakeDataLen ms) =
        (ms.map (fun m => (m.2.map (fun f => f.2)).flatten)).flatten →
      unpackWakeModels out ms.length hoff = ms := by
  intro ms
  induction ms with
  | nil => intro hoff doff _ _ _ _; rfl
  | cons m rest ih =>
    intro hoff doff hvalid hbound hhdr hdata
    obtain ⟨name, files⟩ := m
    have hm := hvalid (name, files) (by simp)
    simp only [wakeModelRecs, List.map_cons, List.sum_cons, List.flatten_cons] at hhdr hdata
    simp only [wakeDataLen, List.map_cons, List.sum_cons] at hbound
    rw [List.append_assoc] at hhdr
    have hfl : (wakeFileRecs files doff).1.length = 40 * files.length :=
      wakeFileRecs_bytes_length files doff
    have hmdl : ((files.map (fun f => f.2)).flatten).length =
        (files.map (fun f => f.2.length)).sum := dataFlatten_length files
    have h32 : (out.drop hoff).take 32 = wakePackString name 32 := by
      have h := slice_of_take_eq hhdr 0 32 (by omega)
      rw [List.drop_zero, List.drop_zero] at h
      rw [h, rec2_take32]
    have hcnt : (out.drop (hoff + 32)).take 4 = packUint32 files.length := by
      have h := slice_of_take_eq hhdr 32 4 (by omega)
      rw [List.drop_drop] at h
      rw [h, rec2_drop32_take4]
    have hrc : readU32 out (hoff + 32) = files.length :=
      readU32_slice out (hoff + 32) files.length hm.2.1 hcnt
    have hfb : (out.drop (hoff + 36)).take (40 * files.length) =
        (wakeFileRecs files doff).1 := by
      have h := slice_of_take_eq hhdr 36 (40 * files.length) (by omega)
      rw [List.drop_drop] at h
      rw [h, rec2_drop36]
      have ht := List.take_left (wakeFileRecs files doff).1
        (wakeModelRecs rest (wakeFileRecs files doff).2)
      rw [hfl] at ht
      exact ht
    have hfdata : (out.drop doff).take ((files.map (fun f => f.2.length)).sum) =
        (files.map (fun f => f.2)).flatten := by
      have hle : 0 + (files.map (fun f => f.2.length)).sum ≤
          wakeDataLen ((name, files) :: rest) := by
        simp only [wakeDataLen, List.map_cons, List.sum_cons]
        omega
      have h := slice_of_take_eq hdata 0 ((files.map (fun f => f.2.length)).sum) hle
      rw [List.drop_zero, List.drop_zero] at h
      rw [h]
      have ht := List.take_left ((files.map (fun f => f.2)).flatten)
        ((rest.map (fun m => (m.2.map (fun f => f.2)).flatten)).flatten)
      rw [hmdl] at ht
      exact ht
    have hfilesrec := unpackWakeFiles_correct out files (hoff + 36) doff
      hm.2.2 (by simp only [wakeDataLen, List.map_cons, List.sum_cons] at *; omega) hfb hfdata
    have hhdr2 : (out.drop (hoff + (36 + files.length * 40))).take
        ((rest.map (fun m => 36 + m.2.length * 40)).sum) =
        wakeModelRecs rest (doff + (files.map (fun f => f.2.length)).sum) := by
      have h := slice_of_take_eq hhdr (36 + files.length * 40)
        ((rest.map (fun m => 36 + m.2.length * 40)).sum) (by omega)
      rw [List.drop_drop] at h
      rw [h]
      rw [← List.drop_drop]
      rw [rec2_drop36]
      have hd := List.drop_left (wakeFileRecs files doff).1
        (wakeModelRecs rest (wakeFileRecs files doff).2)
      rw [hfl, Nat.mul_comm 40 files.length] at hd
      rw [hd]
      rw [wakeFileRecs_off]
      exact List.take_of_length_le (by rw [wakeModelRecs_length])
    have hdata2 : (out.drop (doff + (files.map (fun f => f.2.length)).sum)).take
        (wakeDataLen rest) =
        (rest.map (fun m => (m.2.map (fun f => f.2)).flatten)).flatten := by
      have h := slice_of_take_eq hdata ((files.map (fun f => f.2.length)).sum)
        (wakeDataLen rest) (by simp only [wakeDataLen, List.map_cons, List.sum_cons] at *; omega)
      rw [List.drop_drop] at h
      rw [h]
      have hd := List.drop_left ((files.map (fun f => f.2)).flatten)
        ((rest.map (fun m => (m.2.map (fun f => f.2)).flatten)).flatten)
      rw [hmdl] at hd
      rw [hd]
      exact List.take_of_length_le (by rw [wakeDataFlatten_length])
    simp only [List.length_cons, unpackWakeModels]
    rw [hrc]
    rw [readName32_recovers out hoff name hm.1.1 hm.1.2 h32]
    rw [hfilesrec]
    rw [ih (hoff + 36 + files.length * 40)
      (doff + (files.map (fun f => f.2.length)).sum)
      (fun x hx => hvalid x (by simp [hx])) (by simp only [wakeDataLen, List.map_cons, List.sum_cons] at *; omega)
      (by rw [Nat.add_assoc]; exact hhdr2) hdata2]

theorem sortedModels_length (models : List (Str × List (Str × List Nat))) :
    (sortedModels models).length = models.length := by
  unfold sortedModels
  rw [List.length_map, (List.perm_insertionSort wakeR models).length_eq]

theorem headerSum_ge_count (models : List (Str × List (Str × List Nat))) :
    36 * models.length ≤ (models.map (fun m => 36 + m.2.length * 40)).sum := by
  induction models with
  | nil => simp
  | cons m rest ih =>
    simp only [List.map_cons, List.sum_cons, List.length_cons]
    omega

theorem wakeHeaderLen_sortedModels (models : List (Str × List (Str × List Nat))) :
    wakeHeaderLen (sortedModels models) = wakeHeaderLen models := by
  unfold wakeHeaderLen sortedModels
  congr 1
  rw [List.map_map]
  have hmap : (models.insertionSort wakeR).map
      ((fun m => 36 + m.2.length * 40) ∘ (fun m => (m.1, m.2.insertionSort wakeR))) =
      (models.insertionSort wakeR).map (fun m => 36 + m.2.length * 40) :=
    List.map_congr_left (fun m _ => by
      simp only [Function.comp]
      rw [(List.perm_insertionSort wakeR m.2).length_eq])
  rw [hmap]
  exact (((List.perm_insertionSort wakeR models)).map _).sum_eq

theorem wakeDataLen_sortedModels (models : List (Str × List (Str × List Nat))) :
    wakeDataLen (sortedModels models) = wakeDataLen models := by
  unfold wakeDataLen sortedModels
  rw [List.map_map]
  have hmap : (models.insertionSort wakeR).map
      ((fun m => (m.2.map (fun f => f.2.length)).sum) ∘
        (fun m => (m.1, m.2.insertionSort wakeR))) =
      (models.insertionSort wakeR).map (fun m => (m.2.map (fun f => f.2.length)).sum) :=
    List.map_congr_left (fun m _ => by
      simp only [Function.comp]
      exact (((List.perm_insertionSort wakeR m.2)).map _).sum_eq)
  rw [hmap]
  exact (((List.perm_insertionSort wakeR models)).map _).sum_eq

theorem member_header_le_sum (models : List (Str × List (Str × List Nat)))
    (x : Str × List (Str × List Nat)) (hx : x ∈ models) :
    36 + x.2.length * 40 ≤ (models.map (fun m => 36 + m.2.length * 40)).sum := by
  exact List.single_le_sum (fun _ _ => Nat.zero_le _) _
    (List.mem_map.mpr ⟨x, hx, rfl⟩)

/-- **C6**: for every non-empty model list, `packModels` succeeds and the
packed blob begins with the model count as a little-endian u32, followed by
per-model headers in ascending model-name order (32-byte zero-padded name,
file count, per-file records with name, absolute start offset and length),
followed by the file bytes in the same order; reading the blob back through
the documented offset table (`unpackWake`) recovers exactly the sorted
models with their original names and file bytes.  Hypotheses: names are
nonempty sequences of at most 32 nonzero bytes, and the container fits in
32 bits. -/
theorem wake_models_roundtrip (models : List (Str × List (Str × List Nat)))
    (hne : models ≠ [])
    (hvalid : ∀ m ∈ models, (m.1.length ≤ 32 ∧ ∀ u ∈ m.1, 0 < u ∧ u < 256) ∧
      ∀ f ∈ m.2, f.1.length ≤ 32 ∧ ∀ u ∈ f.1, 0 < u ∧ u < 256)
    (hbound : wakeHeaderLen models + wakeDataLen models < 4294967296) :
    ∃ out, packModels models = some out ∧
      readU32 out 0 = models.length ∧ unpackWake out = sortedModels models := by
  have hn0 : ¬ models.length = 0 := by
    intro h
    exact hne (List.length_eq_zero.mp h)
  have hsl : (sortedModels models).length = models.length := sortedModels_length models
  have hH : wakeHeaderLen (sortedModels models) = wakeHeaderLen models :=
    wakeHeaderLen_sortedModels models
  have hD : wakeDataLen (sortedModels models) = wakeDataLen models :=
    wakeDataLen_sortedModels models
  have hn32 : models.length < 4294967296 := by
    have hge := headerSum_ge_count models
    unfold wakeHeaderLen at hbound
    omega
  refine ⟨packUint32 models.length ++
    wakeModelRecs (sortedModels models) (wakeHeaderLen (sortedModels models)) ++
    ((sortedModels models).map (fun m => (m.2.map (fun f => f.2)).flatten)).flatten,
    ?_, ?_, ?_⟩
  · unfold packModels
    rw [if_neg hn0]
  · apply readU32_slice _ _ _ hn32
    rw [List.drop_zero, List.append_assoc]
    have ht := List.take_left (packUint32 models.length)
      (wakeModelRecs (sortedModels models) (wakeHeaderLen (sortedModels models)) ++
        ((sortedModels models).map (fun m => (m.2.map (fun f => f.2)).flatten)).flatten)
    rw [packUint32_length] at ht
    exact ht
  · have hdrop4 : (packUint32 models.length ++
        wakeModelRecs (sortedModels models) (wakeHeaderLen (sortedModels models)) ++
        ((sortedModels models).map
          (fun m => (m.2.map (fun f => f.2)).flatten)).flatten).drop 4 =
        wakeModelRecs (sortedModels models) (wakeHeaderLen (sortedModels models)) ++
        ((sortedModels models).map (fun m => (m.2.map (fun f => f.2)).flatten)).flatten := by
      rw [List.append_assoc]
      have hd := List.drop_left (packUint32 models.length)
        (wakeModelRecs (sortedModels models) (wakeHeaderLen (sortedModels models)) ++
          ((sortedModels models).map (fun m => (m.2.map (fun f => f.2)).flatten)).flatten)
      rw [packUint32_length] at hd
      exact hd
    have hcnt : readU32 (packUint32 models.length ++
        wakeModelRecs (sortedModels models) (wakeHeaderLen (sortedModels models)) ++
        ((sortedModels models).map
          (fun m => (m.2.map (fun f => f.2)).flatten)).flatten) 0 = models.length := by
      apply readU32_slice _ _ _ hn32
      rw [List.drop_zero, List.append_assoc]
      have ht := List.take_left (packUint32 models.length)
        (wakeModelRecs (sortedModels models) (wakeHeaderLen (sortedModels models)) ++
          ((sortedModels models).map (fun m => (m.2.map (fun f => f.2)).flatten)).flatten)
      rw [packUint32_length] at ht
      exact ht
    have hvalidS : ∀ m ∈ sortedModels models,
        (m.1.length ≤ 32 ∧ ∀ u ∈ m.1, 0 < u ∧ u < 256) ∧
        m.2.length < 4294967296 ∧
        ∀ f ∈ m.2, f.1.length ≤ 32 ∧ ∀ u ∈ f.1, 0 < u ∧ u < 256 := by
      intro m hm
      obtain ⟨x, hx, hxm⟩ := List.mem_map.mp hm
      have hxmem : x ∈ models := (List.perm_insertionSort wakeR models).mem_iff.mp hx
      have hv := hvalid x hxmem
      have hxlen : (x.2.insertionSort wakeR).length = x.2.length :=
        (List.perm_insertionSort wakeR x.2).length_eq
      have hxb : 36 + x.2.length * 40 ≤
          (models.map (fun m => 36 + m.2.length * 40)).sum :=
        member_header_le_sum models x hxmem
      rw [← hxm]
      refine ⟨hv.1, ?_, ?_⟩
      · show (x.2.insertionSort wakeR).length < 4294967296
        rw [hxlen]
        unfold wakeHeaderLen at hbound
        omega
      · intro f hf
        exact hv.2 f ((List.perm_insertionSort wakeR x.2).mem_iff.mp hf)
    have hhdr : ((packUint32 models.length ++
        wakeModelRecs (sortedModels models) (wakeHeaderLen (sortedModels models)) ++
        ((sortedModels models).map
          (fun m => (m.2.map (fun f => f.2)).flatten)).flatten).drop 4).take
        (((sortedModels models).map (fun m => 36 + m.2.length * 40)).sum) =
        wakeModelRecs (sortedModels models) (wakeHeaderLen (sortedModels models)) := by
      rw [hdrop4]
      have ht := List.take_left
        (wakeModelRecs (sortedModels models) (wakeHeaderLen (sortedModels models)))
        (((sortedModels models).map (fun m => (m.2.map (fun f => f.2)).flatten)).flatten)
      rw [wakeModelRecs_length] at ht
      exact ht
    have hdropH : (packUint32 models.length ++
        wakeModelRecs (sortedModels models) (wakeHeaderLen (sortedModels models)) ++
        ((sortedModels models).map
          (fun m => (m.2.map (fun f => f.2)).flatten)).flatten).drop
        (wakeHeaderLen (sortedModels models)) =
        ((sortedModels models).map (fun m => (m.2.map (fun f => f.2)).flatten)).flatten := by
      have heq : wakeHeaderLen (sortedModels models) =
          4 + ((sortedModels models).map (fun m => 36 + m.2.length * 40)).sum := rfl
      nth_rewrite 1 [heq]
      rw [← List.drop_drop, hdrop4]
      have hd := List.drop_left
        (wakeModelRecs (sortedModels models) (wakeHeaderLen (sortedModels models)))
        (((sortedModels models).map (fun m => (m.2.map (fun f => f.2)).flatten)).flatten)
      rw [wakeModelRecs_length] at hd
      exact hd
    have hdata : ((packUint32 models.length ++
        wakeModelRecs (sortedModels models) (wakeHeaderLen (sortedModels models)) ++
        ((sortedModels models).map
          (fun m => (m.2.map (fun f => f.2)).flatten)).flatten).drop
        (wakeHeaderLen (sortedModels models))).take (wakeDataLen (sortedModels models)) =
        ((sortedModels models).map (fun m => (m.2.map (fun f => f.2)).flatten)).flatten := by
      rw [hdropH]
      exact List.take_of_length_le (le_of_eq (wakeDataFlatten_length (sortedModels models)))
    show unpackWake _ = sortedModels models
    unfold unpackWake
    rw [hcnt]
    nth_rewrite 2 [← hsl]
    exact unpackWakeModels_correct _ (sortedModels models) 4
      (wakeHeaderLen (sortedModels models)) hvalidS (by rw [hH, hD]; exact hbound)
      hhdr hdata

theorem wake_models_roundtrip_witness :
    ([(strLit "wn9", [(strLit "beta", [1, 2, 3]), (strLit "alpha", [4, 5]),
        (strLit "gamma", [6])]),
      (strLit "hilexin", [(strLit "x", [7, 8]), (strLit "y", [9]),
        (strLit "z", [10, 11, 12])])] : List (Str × List (Str × List Nat))) ≠ [] ∧
    ∃ out,
      packModels [(strLit "wn9", [(strLit "beta", [1, 2, 3]), (strLit "alpha", [4, 5]),
          (strLit "gamma", [6])]),
        (strLit "hilexin", [(strLit "x", [7, 8]), (strLit "y", [9]),
          (strLit "z", [10, 11, 12])])] = some out ∧
      readU32 out 0 = 2 ∧
      unpackWake out = sortedModels [(strLit "wn9", [(strLit "beta", [1, 2, 3]),
          (strLit "alpha", [4, 5]), (strLit "gamma", [6])]),
        (strLit "hilexin", [(strLit "x", [7, 8]), (strLit "y", [9]),
          (strLit "z", [10, 11, 12])])] :=
  ⟨by decide,
    wake_models_roundtrip
      [(strLit "wn9", [(strLit "beta", [1, 2, 3]), (strLit "alpha", [4, 5]),
          (strLit "gamma", [6])]),
        (strLit "hilexin", [(strLit "x", [7, 8]), (strLit "y", [9]),
          (strLit "z", [10, 11, 12])])]
      (by decide) (by decide) (by decide)⟩

/-! ## AssetsBuilder.convertImageToRgb565 (src/unnamed/part_003) -/

/-- One RGB565 pixel of `convertImageToRgb565`:
`r = p >> 3, g = p >> 2, b = p >> 3` packed as `(r << 11) | (g << 5) | b`. -/
def rgb565Pixel (r g b : Nat) : Nat :=
  ((r >>> 3) <<< 11) ||| ((g >>> 2) <<< 5) ||| (b >>> 3)

/-- Little-endian bytes of one `Uint16Array` element store (`ToUint16`
wraps modulo `2 ^ 16`; byte order of the target platforms is little
endian). -/
def uint16leBytes (v : Nat) : List Nat :=
  [v % 65536 % 256, v % 65536 / 256]

/-- Translation of `AssetsBuilder.convertImageToRgb565` after the canvas
draw: `pixels` is the decoded RGBA pixel list of the `w × h` canvas in
row-major order; the output is the seven little-endian u32 words of the
28-byte `lv_image_dsc_t` header (`headerWord1`, `sizeWord`, `strideWord`,
`data_size`, data offset 28, two reserved zeros) followed by the RGB565
pixel buffer. -/
def convertImageToRgb565 (w h : Nat) (pixels : List (Nat × Nat × Nat × Nat)) :
    List Nat :=
  packUint32 ((0 <<< 24) ||| (0 <<< 16) ||| (0x12 <<< 8) ||| 0x19) ++
    packUint32 ((h <<< 16) ||| w) ++
    packUint32 ((0 <<< 16) ||| w * 2) ++
    packUint32 (w * h * 2) ++
    packUint32 28 ++ packUint32 0 ++ packUint32 0 ++
    (pixels.map (fun p => uint16leBytes (rgb565Pixel p.1 p.2.1 p.2.2.1))).flatten

theorem lor_shift_add : ∀ (n x y : Nat), x < 2 ^ n → (y <<< n) ||| x = y * 2 ^ n + x := by
  intro n
  induction n with
  | zero =>
    intro x y hx
    interval_cases x
    simp
  | succ n ih =>
    intro x y hx
    have hx2 : x / 2 < 2 ^ n := by
      have := Nat.pow_succ 2 n
      omega
    have hb : Nat.bit x.bodd x.div2 = x := Nat.bit_decomp x
    have hsh : Nat.bit false (y <<< n) = y <<< (n + 1) := by
      rw [Nat.bit_val, Nat.shiftLeft_succ]
      simp [Nat.mul_comm]
    calc (y <<< (n + 1)) ||| x
        = Nat.bit false (y <<< n) ||| Nat.bit x.bodd x.div2 := by rw [hb, hsh]
      _ = Nat.bit (false || x.bodd) ((y <<< n) ||| x.div2) := Nat.lor_bit _ _ _ _
      _ = Nat.bit x.bodd (y * 2 ^ n + x / 2) := by
          rw [Bool.false_or, Nat.div2_val, ih _ _ hx2]
      _ = y * 2 ^ (n + 1) + x := by
          rw [Nat.bit_val]
          have hm : x % 2 = x.bodd.toNat := by
            rw [Nat.mod_two_of_bodd]
          have hp : (2 : Nat) ^ (n + 1) = 2 * 2 ^ n := by ring
          have he : y * 2 ^ (n + 1) = 2 * (y * 2 ^ n) := by rw [hp]; ring
          omega

theorem rgb565Pixel_lt (r g b : Nat) (hr : r < 256) (hg : g < 256) (hb : b < 256) :
    rgb565Pixel r g b < 65536 := by
  unfold rgb565Pixel
  have h1 : r >>> 3 < 32 := by
    rw [Nat.shiftRight_eq_div_pow]
    omega
  have h2 : g >>> 2 < 64 := by
    rw [Nat.shiftRight_eq_div_pow]
    omega
  have h3 : b >>> 3 < 32 := by
    rw [Nat.shiftRight_eq_div_pow]
    omega
  have e1 : (r >>> 3) <<< 11 < 65536 := by
    rw [Nat.shiftLeft_eq]
    omega
  have e2 : (g >>> 2) <<< 5 < 65536 := by
    rw [Nat.shiftLeft_eq]
    omega
  have e3 : b >>> 3 < 65536 := by omega
  have h16 : (65536 : Nat) = 2 ^ 16 := rfl
  rw [h16] at e1 e2 e3 ⊢
  exact Nat.or_lt_two_pow (Nat.or_lt_two_pow e1 e2) e3

theorem uint16leBytes_eq_packUint16 (v : Nat) (hv : v < 65536) :
    uint16leBytes v = packUint16 v := by
  unfold uint16leBytes packUint16
  have h2 : v / 256 < 256 := by omega
  rw [Nat.mod_eq_of_lt hv, Nat.mod_eq_of_lt h2]

theorem slice_getD {l r : List Nat} {off n : Nat} (h : (l.drop off).take n = r)
    (j : Nat) (hj : j < n) : l.getD (off + j) 0 = r.getD j 0 := by
  rw [← h]
  have h1 : l.getD (off + j) 0 = (l.drop off).getD j 0 := by
    rw [List.getD_eq_getElem?_getD, List.getD_eq_getElem?_getD, List.getElem?_drop]
  rw [h1]
  rw [List.getD_eq_getElem?_getD, List.getD_eq_getElem?_getD]
  rw [List.getElem?_take]
  simp [hj]

theorem flatten2_slice :
    ∀ (rs : List (List Nat)), (∀ r ∈ rs, r.length = 2) →
      ∀ (i : Nat) (hi : i < rs.length),
        ((rs.flatten).drop (2 * i)).take 2 = rs[i] := by
  intro rs
  induction rs with
  | nil => intro _ i hi; simp at hi
  | cons r rest ih =>
    intro hlen i hi
    cases i with
    | zero =>
      simp only [Nat.mul_zero, List.drop_zero, List.flatten_cons,
        List.getElem_cons_zero]
      rw [← hlen r (by simp)]
      exact List.take_left _ _
    | succ i =>
      have hd := List.drop_left r rest.flatten
      rw [hlen r (by simp)] at hd
      have h2 : 2 * (i + 1) = 2 + 2 * i := by ring
      rw [List.flatten_cons, h2, ← List.drop_drop, hd,
        List.getElem_cons_succ]
      exact ih (fun x hx => hlen x (by simp [hx])) i (by simpa using hi)

theorem pixelFlat_length (pixels : List (Nat × Nat × Nat × Nat)) :
    ((pixels.map (fun p =>
      uint16leBytes (rgb565Pixel p.1 p.2.1 p.2.2.1))).flatten).length =
      2 * pixels.length := by
  induction pixels with
  | nil => rfl
  | cons p rest ih =>
    simp only [List.map_cons, List.flatten_cons, List.length_append, ih,
      List.length_cons]
    have h2 : (uint16leBytes (rgb565Pixel p.1 p.2.1 p.2.2.1)).length = 2 := rfl
    omega

theorem rgb565_drop4 (w h : Nat) (pixels : List (Nat × Nat × Nat × Nat)) :
    (convertImageToRgb565 w h pixels).drop 4 =
      packUint32 ((h <<< 16) ||| w) ++ (packUint32 ((0 <<< 16) ||| w * 2) ++
        (packUint32 (w * h * 2) ++ (packUint32 28 ++ (packUint32 0 ++
          (packUint32 0 ++ (pixels.map (fun p =>
            uint16leBytes (rgb565Pixel p.1 p.2.1 p.2.2.1))).flatten))))) := by
  unfold convertImageToRgb565
  simp only [List.append_assoc]
  exact List.drop_left (packUint32 _) _

theorem rgb565_drop8 (w h : Nat) (pixels : List (Nat × Nat × Nat × Nat)) :
    (convertImageToRgb565 w h pixels).drop 8 =
      packUint32 ((0 <<< 16) ||| w * 2) ++
        (packUint32 (w * h * 2) ++ (packUint32 28 ++ (packUint32 0 ++
          (packUint32 0 ++ (pixels.map (fun p =>
            uint16leBytes (rgb565Pixel p.1 p.2.1 p.2.2.1))).flatten)))) := by
  rw [show (8 : Nat) = 4 + 4 from rfl, ← List.drop_drop, rgb565_drop4]
  exact List.drop_left (packUint32 _) _

theorem rgb565_drop12 (w h : Nat) (pixels : List (Nat × Nat × Nat × Nat)) :
    (convertImageToRgb565 w h pixels).drop 12 =
      packUint32 (w * h * 2) ++ (packUint32 28 ++ (packUint32 0 ++
        (packUint32 0 ++ (pixels.map (fun p =>
          uint16leBytes (rgb565Pixel p.1 p.2.1 p.2.2.1))).flatten))) := by
  rw [show (12 : Nat) = 8 + 4 from rfl, ← List.drop_drop, rgb565_drop8]
  exact List.drop_left (packUint32 _) _

theorem rgb565_drop16 (w h : Nat) (pixels : List (Nat × Nat × Nat × Nat)) :
    (convertImageToRgb565 w h pixels).drop 16 =
      packUint32 28 ++ (packUint32 0 ++ (packUint32 0 ++
        (pixels.map (fun p =>
          uint16leBytes (rgb565Pixel p.1 p.2.1 p.2.2.1))).flatten)) := by
  rw [show (16 : Nat) = 12 + 4 from rfl, ← List.drop_drop, rgb565_drop12]
  exact List.drop_left (packUint32 _) _

theorem rgb565_drop20 (w h : Nat) (pixels : List (Nat × Nat × Nat × Nat)) :
    (convertImageToRgb565 w h pixels).drop 20 =
      packUint32 0 ++ (packUint32 0 ++
        (pixels.map (fun p =>
          uint16leBytes (rgb565Pixel p.1 p.2.1 p.2.2.1))).flatten) := by
  rw [show (20 : Nat) = 16 + 4 from rfl, ← List.drop_drop, rgb565_drop16]
  exact List.drop_left (packUint32 _) _

theorem rgb565_drop24 (w h : Nat) (pixels : List (Nat × Nat × Nat × Nat)) :
    (convertImageToRgb565 w h pixels).drop 24 =
      packUint32 0 ++ (pixels.map (fun p =>
        uint16leBytes (rgb565Pixel p.1 p.2.1 p.2.2.1))).flatten := by
  rw [show (24 : Nat) = 20 + 4 from rfl, ← List.drop_drop, rgb565_drop20]
  exact List.drop_left (packUint32 _) _

theorem rgb565_drop28 (w h : Nat) (pixels : List (Nat × Nat × Nat × Nat)) :
    (convertImageToRgb565 w h pixels).drop 28 =
      (pixels.map (fun p =>
        uint16leBytes (rgb565Pixel p.1 p.2.1 p.2.2.1))).flatten := by
  rw [show (28 : Nat) = 24 + 4 from rfl, ← List.drop_drop, rgb565_drop24]
  exact List.drop_left (packUint32 _) _

/-- **C7**: `convertImageToRgb565` outputs the 28-byte `lv_image_dsc_t`
descriptor — magic byte `0x19`, RGB565 color-format byte `0x12`, zero
flags, width `w`, height `h`, stride `2·w`, zero reserved field, dataSize
`2·w·h`, dataOffset `28`, two reserved zero words — followed immediately by
the `w·h` RGB565 pixels as little-endian 16-bit values in row-major order
with no inter-row padding, pixel `k` being
`(r >> 3) << 11 ||| (g >> 2) << 5 ||| (b >> 3)` of source pixel `k`
(hypotheses: the pixel list has `w·h` RGBA entries with 8-bit components,
`w < 2 ^ 15`, `h < 2 ^ 16`, and the pixel buffer size fits in 32 bits). -/
theorem rgb565_conversion (w h : Nat) (pixels : List (Nat × Nat × Nat × Nat))
    (hlen : pixels.length = w * h)
    (hcomp : ∀ p ∈ pixels, p.1 < 256 ∧ p.2.1 < 256 ∧ p.2.2.1 < 256)
    (hw : w < 32768) (hh : h < 65536) (hsz : w * h * 2 < 4294967296) :
    (convertImageToRgb565 w h pixels).length = 28 + 2 * (w * h) ∧
    (convertImageToRgb565 w h pixels).getD 0 0 = 0x19 ∧
    (convertImageToRgb565 w h pixels).getD 1 0 = 0x12 ∧
    (convertImageToRgb565 w h pixels).getD 2 0 +
      256 * (convertImageToRgb565 w h pixels).getD 3 0 = 0 ∧
    (convertImageToRgb565 w h pixels).getD 4 0 +
      256 * (convertImageToRgb565 w h pixels).getD 5 0 = w ∧
    (convertImageToRgb565 w h pixels).getD 6 0 +
      256 * (convertImageToRgb565 w h pixels).getD 7 0 = h ∧
    (convertImageToRgb565 w h pixels).getD 8 0 +
      256 * (convertImageToRgb565 w h pixels).getD 9 0 = w * 2 ∧
    (convertImageToRgb565 w h pixels).getD 10 0 +
      256 * (convertImageToRgb565 w h pixels).getD 11 0 = 0 ∧
    readU32 (convertImageToRgb565 w h pixels) 12 = w * h * 2 ∧
    readU32 (convertImageToRgb565 w h pixels) 16 = 28 ∧
    readU32 (convertImageToRgb565 w h pixels) 20 = 0 ∧
    readU32 (convertImageToRgb565 w h pixels) 24 = 0 ∧
    ∀ k, (hk : k < pixels.length) →
      (convertImageToRgb565 w h pixels).getD (28 + 2 * k) 0 +
        256 * (convertImageToRgb565 w h pixels).getD (28 + 2 * k + 1) 0 =
        rgb565Pixel pixels[k].1 pixels[k].2.1 pixels[k].2.2.1 := by
  have h16 : (2 : Nat) ^ 16 = 65536 := by norm_num
  have hW1 : ((0 <<< 24) ||| (0 <<< 16) ||| (0x12 <<< 8) ||| 0x19 : Nat) = 4633 := by
    decide
  have hW2 : ((h <<< 16) ||| w : Nat) = h * 65536 + w := by
    rw [lor_shift_add 16 w h (by omega), h16]
  have hW3 : ((0 <<< 16) ||| w * 2 : Nat) = w * 2 := by simp
  have hs0 : ((convertImageToRgb565 w h pixels).drop 0).take 4 =
      packUint32 ((0 <<< 24) ||| (0 <<< 16) ||| (0x12 <<< 8) ||| 0x19) := by
    rw [List.drop_zero]
    unfold convertImageToRgb565
    simp only [List.append_assoc]
    exact List.take_left (packUint32 _) _
  have hs4 : ((convertImageToRgb565 w h pixels).drop 4).take 4 =
      packUint32 ((h <<< 16) ||| w) := by
    rw [rgb565_drop4]
    exact List.take_left (packUint32 _) _
  have hs8 : ((convertImageToRgb565 w h pixels).drop 8).take 4 =
      packUint32 ((0 <<< 16) ||| w * 2) := by
    rw [rgb565_drop8]
    exact List.take_left (packUint32 _) _
  have hs12 : ((convertImageToRgb565 w h pixels).drop 12).take 4 =
      packUint32 (w * h * 2) := by
    rw [rgb565_drop12]
    exact List.take_left (packUint32 _) _
  have hs16 : ((convertImageToRgb565 w h pixels).drop 16).take 4 =
      packUint32 28 := by
    rw [rgb565_drop16]
    exact List.take_left (packUint32 _) _
  have hs20 : ((convertImageToRgb565 w h pixels).drop 20).take 4 =
      packUint32 0 := by
    rw [rgb565_drop20]
    exact List.take_left (packUint32 _) _
  have hs24 : ((convertImageToRgb565 w h pixels).drop 24).take 4 =
      packUint32 0 := by
    rw [rgb565_drop24]
    exact List.take_left (packUint32 _) _
  rw [hW1] at hs0
  rw [hW2] at hs4
  rw [hW3] at hs8
  refine ⟨?_, ?_, ?_, ?_, ?_, ?_, ?_, ?_, ?_, ?_, ?_, ?_, ?_⟩
  · unfold convertImageToRgb565
    simp only [List.length_append, packUint32_length, pixelFlat_length, hlen]
  · have e0 : (convertImageToRgb565 w h pixels).getD 0 0 = 4633 % 256 :=
      slice_getD hs0 0 (by omega)
    omega
  · have e1 : (convertImageToRgb565 w h pixels).getD 1 0 = 4633 / 256 % 256 :=
      slice_getD hs0 1 (by omega)
    omega
  · have e2 : (convertImageToRgb565 w h pixels).getD 2 0 = 4633 / 65536 % 256 :=
      slice_getD hs0 2 (by omega)
    have e3 : (convertImageToRgb565 w h pixels).getD 3 0 = 4633 / 16777216 % 256 :=
      slice_getD hs0 3 (by omega)
    omega
  · have e0 : (convertImageToRgb565 w h pixels).getD 4 0 = (h * 65536 + w) % 256 :=
      slice_getD hs4 0 (by omega)
    have e1 : (convertImageToRgb565 w h pixels).getD 5 0 =
        (h * 65536 + w) / 256 % 256 :=
      slice_getD hs4 1 (by omega)
    omega
  · have e2 : (convertImageToRgb565 w h pixels).getD 6 0 =
        (h * 65536 + w) / 65536 % 256 :=
      slice_getD hs4 2 (by omega)
    have e3 : (convertImageToRgb565 w h pixels).getD 7 0 =
        (h * 65536 + w) / 16777216 % 256 :=
      slice_getD hs4 3 (by omega)
    omega
  · have e0 : (convertImageToRgb565 w h pixels).getD 8 0 = w * 2 % 256 :=
      slice_getD hs8 0 (by omega)
    have e1 : (convertImageToRgb565 w h pixels).getD 9 0 = w * 2 / 256 % 256 :=
      slice_getD hs8 1 (by omega)
    omega
  · have e2 : (convertImageToRgb565 w h pixels).getD 10 0 = w * 2 / 65536 % 256 :=
      slice_getD hs8 2 (by omega)
    have e3 : (convertImageToRgb565 w h pixels).getD 11 0 =
        w * 2 / 16777216 % 256 :=
      slice_getD hs8 3 (by omega)
    omega
  · exact readU32_slice _ 12 _ hsz hs12
  · exact readU32_slice _ 16 _ (by omega) hs16
  · exact readU32_slice _ 20 _ (by omega) hs20
  · exact readU32_slice _ 24 _ (by omega) hs24
  · intro k hk
    have hcp := hcomp pixels[k] (List.getElem_mem hk)
    have hv : rgb565Pixel pixels[k].1 pixels[k].2.1 pixels[k].2.2.1 < 65536 :=
      rgb565Pixel_lt _ _ _ hcp.1 hcp.2.1 hcp.2.2
    have hfl := flatten2_slice
      (pixels.map (fun p => uint16leBytes (rgb565Pixel p.1 p.2.1 p.2.2.1)))
      (by
        intro r hr
        obtain ⟨p, _, hp⟩ := List.mem_map.mp hr
        rw [← hp]
        rfl)
      k (by rw [List.length_map]; exact hk)
    rw [List.getElem_map] at hfl
    have hslice : ((convertImageToRgb565 w h pixels).drop (28 + 2 * k)).take 2 =
        packUint16 (rgb565Pixel pixels[k].1 pixels[k].2.1 pixels[k].2.2.1) := by
      rw [← List.drop_drop, rgb565_drop28, hfl,
        uint16leBytes_eq_packUint16 _ hv]
    exact readU16_slice _ (28 + 2 * k) _ hv hslice

theorem rgb565_conversion_witness :
    ([((255 : Nat), (0 : Nat), (0 : Nat), (0 : Nat)),
      ((0 : Nat), (255 : Nat), (0 : Nat), (0 : Nat))].length = 2 * 1) ∧
    (convertImageToRgb565 2 1 [(255, 0, 0, 0), (0, 255, 0, 0)]).getD 0 0 = 0x19 ∧
    (convertImageToRgb565 2 1 [(255, 0, 0, 0), (0, 255, 0, 0)]).length =
      28 + 2 * (2 * 1) :=
  ⟨by decide,
    (rgb565_conversion 2 1 [(255, 0, 0, 0), (0, 255, 0, 0)] (by decide) (by decide)
      (by decide) (by decide) (by decide)).2.1,
    (rgb565_conversion 2 1 [(255, 0, 0, 0), (0, 255, 0, 0)] (by decide) (by decide)
      (by decide) (by decide) (by decide)).1⟩
